import Mathlib

/-!
Verification of the link-spec reconciliation controller of
`internal/pkg/machine/controllers/link_spec.go`: the wireguard
declarative-to-imperative diff codec (`Encode` / `Decode`), the per-item sync
state machine (`syncLink`) and the reconciliation cycle of `Run`.

External collaborators (the wgctrl `wgtypes` library, the `net` address
parsers, the netlink kernel interface and the talos machinery resource types)
are modelled from their documented contracts; everything else is translated
from the source file.
-/

namespace Talemu

/-! ### Models of external library types -/

/-- Modelled from the spec: `wgtypes.Key` of the external wgctrl library,
identified by its base64 text form. -/
abbrev Key := String

/-- Modelled from the spec: `wgtypes.ParseKey` of the external wgctrl library;
parsing an invalid key fails ("unparsable key is a hard error").  Modelled as
rejecting exactly the empty string and otherwise returning the key denoted by
the text. -/
def parseKey (s : String) : Option Key :=
  if s = "" then none else some s

/-- Modelled from the spec: `wgtypes.Key.String`, the base64 text of a key. -/
def keyString (k : Key) : String := k

/-- Modelled from the spec: the all-zero `wgtypes.Key`; its text form is the
base64 encoding of 32 zero bytes. -/
def zeroKey : Key := "AAAAAAAAAAAAAAAAAAAAAAAAAAAAAAAAAAAAAAAAAAA="

/-- Modelled from the spec: `net.UDPAddr`, identified by its text form. -/
abbrev UDPAddr := String

/-- Modelled from the spec: `net.ResolveUDPAddr`; endpoint resolution may fail
("unresolvable endpoints are fatal to that item").  Modelled as rejecting
exactly the empty string. -/
def resolveUDPAddr (s : String) : Option UDPAddr :=
  if s = "" then none else some s

/-- `netip.Prefix`, identified by its text form. -/
abbrev IPPrefix := String

/-- `net.IPNet`, identified by its text form. -/
abbrev IPNet := String

/-- Modelled from the spec: `netipx.PrefixIPNet`, the (faithful) conversion of
a prefix to the corresponding IP network, modelled as the identity on the text
form. -/
def prefixIPNet (p : IPPrefix) : IPNet := p

/-- Modelled from the spec: `netipx.FromStdIPNet`, the reverse conversion. -/
def fromStdIPNet (n : IPNet) : IPPrefix := n

/-! ### Declarative wireguard data model (`network.WireguardPeer`,
`network.WireguardSpec` of the talos machinery) -/

/-- `network.WireguardPeer`: public key (identity / sort key), optional
preshared key, optional endpoint, keepalive interval, allowed-IP prefixes.
Empty strings are the Go zero values standing for "absent". -/
structure WireguardPeer where
  publicKey : String
  presharedKey : String
  endpoint : String
  persistentKeepaliveInterval : Int
  allowedIPs : List IPPrefix
deriving DecidableEq, Repr

/-- `network.WireguardSpec`: private key, listen port (0 is a meaningful
explicit value), firewall mark, peers; the public key field is only filled by
the status view of `Decode`. -/
structure WireguardSpec where
  publicKey : String
  privateKey : String
  listenPort : Int
  firewallMark : Int
  peers : List WireguardPeer
deriving DecidableEq, Repr

/-! ### Imperative wireguard forms (`wgtypes.PeerConfig`, `wgtypes.Config`,
`wgtypes.Peer`, `wgtypes.Device` of the external wgctrl library) -/

/-- `wgtypes.PeerConfig`: one add/replace/remove entry of a configuration
patch.  `none` fields are left-out (unchanged) fields. -/
structure PeerConfig where
  publicKey : Key
  remove : Bool
  presharedKey : Option Key
  endpoint : Option UDPAddr
  persistentKeepaliveInterval : Option Int
  replaceAllowedIPs : Bool
  allowedIPs : List IPNet
deriving DecidableEq, Repr

/-- `wgtypes.Config`: a configuration patch; `none` fields are not part of the
patch. -/
structure Config where
  privateKey : Option Key
  listenPort : Option Int
  firewallMark : Option Int
  peers : List PeerConfig
deriving DecidableEq, Repr

/-- `wgtypes.Peer`: one peer of the current device state. -/
structure DevicePeer where
  publicKey : Key
  presharedKey : Key
  endpoint : Option UDPAddr
  persistentKeepaliveInterval : Int
  allowedIPs : List IPNet
deriving DecidableEq, Repr

/-- `wgtypes.Device`: the current state of a wireguard device. -/
structure Device where
  privateKey : Key
  publicKey : Key
  listenPort : Int
  firewallMark : Int
  peers : List DevicePeer
deriving DecidableEq, Repr

/-! ### The diff codec (`wireguardSpec.Encode` / `wireguardSpec.Decode`) -/

/-- The `addPeer` closure of `Encode`: build the add/replace entry for a
desired peer.  The preshared key and the endpoint are parsed only when
non-empty (the Go zero value), any parse failure aborts the whole encode, and
the entry wholly replaces the peer's allowed-IP set. -/
def addPeer (peer : WireguardPeer) : Option PeerConfig :=
  match parseKey peer.publicKey with
  | none => none
  | some pubKey =>
    match (if peer.presharedKey ≠ "" then (parseKey peer.presharedKey).map some else some none) with
    | none => none
    | some presharedKey =>
      match (if peer.endpoint ≠ "" then (resolveUDPAddr peer.endpoint).map some else some none) with
      | none => none
      | some endpoint =>
        some
          { publicKey := pubKey
            remove := false
            presharedKey := presharedKey
            endpoint := endpoint
            persistentKeepaliveInterval := some peer.persistentKeepaliveInterval
            replaceAllowedIPs := true
            allowedIPs := peer.allowedIPs.map prefixIPNet }

/-- The `deletePeer` closure of `Encode`: build the remove entry for an
existing peer, keyed only by its public key. -/
def deletePeer (peer : WireguardPeer) : Option PeerConfig :=
  match parseKey peer.publicKey with
  | none => none
  | some pubKey =>
    some
      { publicKey := pubKey
        remove := true
        presharedKey := none
        endpoint := none
        persistentKeepaliveInterval := none
        replaceAllowedIPs := false
        allowedIPs := [] }

/-- Prepend an entry (if its construction succeeded) to the rest of the merge
output, propagating failure. -/
def mcons (entry : Option PeerConfig) (rest : Option (List PeerConfig)) :
    Option (List PeerConfig) :=
  match entry, rest with
  | some e, some es => some (e :: es)
  | _, _ => none

/-- The merge loop of `Encode`: a linear merge-join over the two
ascending-sorted peer lists (cursors `l` over `existing.Peers` and `r` over
`spec.Peers`), producing the add/replace/remove entries in loop order.
Mirrors the Go `switch`: the `left == nil || left.PublicKey > right.PublicKey`
case appends an add entry, the `right == nil || left.PublicKey <
right.PublicKey` case appends a remove entry, and the equal-keys case appends
a replace entry only when the peer contents differ. -/
def mergePeers : List WireguardPeer → List WireguardPeer → Option (List PeerConfig)
  | [], [] => some []
  | [], right :: rs => mcons (addPeer right) (mergePeers [] rs)
  | left :: ls, [] => mcons (deletePeer left) (mergePeers ls [])
  | left :: ls, right :: rs =>
    if left.publicKey > right.publicKey then
      mcons (addPeer right) (mergePeers (left :: ls) rs)
    else if left.publicKey < right.publicKey then
      mcons (deletePeer left) (mergePeers ls (right :: rs))
    else if left = right then
      mergePeers ls rs
    else
      mcons (addPeer right) (mergePeers ls rs)
termination_by ex ds => ex.length + ds.length

/-- `wireguardSpec.Encode`: convert the desired spec into a `wgtypes.Config`
patch against `existing`.  Private key, listen port and firewall mark are
included only when changed, and the peers are diffed by `mergePeers`. -/
def Encode (spec existing : WireguardSpec) : Option Config :=
  match (if existing.privateKey ≠ spec.privateKey then (parseKey spec.privateKey).map some else some none) with
  | none => none
  | some privateKey =>
    match mergePeers existing.peers spec.peers with
    | none => none
    | some peers =>
      some
        { privateKey := privateKey
          listenPort := if existing.listenPort ≠ spec.listenPort then some spec.listenPort else none
          firewallMark := if existing.firewallMark ≠ spec.firewallMark then some spec.firewallMark else none
          peers := peers }

/-- The peer conversion of `wireguardSpec.Decode`: a preshared key equal to
the all-zero key and an absent endpoint are left at the Go zero value `""`. -/
def decodePeer (p : DevicePeer) : WireguardPeer :=
  { publicKey := keyString p.publicKey
    presharedKey := if p.presharedKey ≠ zeroKey then keyString p.presharedKey else ""
    endpoint := match p.endpoint with | some e => e | none => ""
    persistentKeepaliveInterval := p.persistentKeepaliveInterval
    allowedIPs := p.allowedIPs.map fromStdIPNet }

/-- `wireguardSpec.Decode`: fill the spec from the device state.  `isStatus`
selects whether the device's public key (status view) or private key (config
view) is captured; the other key field keeps its previous value. -/
def Decode (spec : WireguardSpec) (dev : Device) (isStatus : Bool) : WireguardSpec :=
  { spec with
    publicKey := if isStatus then keyString dev.publicKey else spec.publicKey
    privateKey := if isStatus then spec.privateKey else keyString dev.privateKey
    listenPort := dev.listenPort
    firewallMark := dev.firewallMark
    peers := dev.peers.map decodePeer }

/-! ### Semantics of applying a patch to a peer set

The meaning of the emitted entries, in declarative terms: a remove entry
drops the peer with that public key; an add/replace entry (it carries the full
new peer state and `ReplaceAllowedIPs`) wholly replaces the peer with that key
or appends it when absent. -/

/-- The declarative content carried by an add/replace entry: left-out optional
fields stand for the absent (zero) value. -/
def peerConfigToSpec (e : PeerConfig) : WireguardPeer :=
  { publicKey := keyString e.publicKey
    presharedKey := match e.presharedKey with | some k => keyString k | none => ""
    endpoint := match e.endpoint with | some a => a | none => ""
    persistentKeepaliveInterval :=
      match e.persistentKeepaliveInterval with | some i => i | none => 0
    allowedIPs := e.allowedIPs.map fromStdIPNet }

/-- Apply one patch entry to a peer list. -/
def applyPeerConfig (peers : List WireguardPeer) (e : PeerConfig) : List WireguardPeer :=
  if e.remove then
    peers.filter (fun p => p.publicKey ≠ keyString e.publicKey)
  else if peers.any (fun p => p.publicKey == keyString e.publicKey) then
    peers.map (fun p => if p.publicKey = keyString e.publicKey then peerConfigToSpec e else p)
  else
    peers ++ [peerConfigToSpec e]

/-- Apply the entries of a patch in order. -/
def applyPeerConfigs (peers : List WireguardPeer) (es : List PeerConfig) : List WireguardPeer :=
  es.foldl applyPeerConfig peers

/-- Does a peer with public key `k` occur in the list? -/
def keyMem (k : String) (ps : List WireguardPeer) : Bool :=
  ps.any (fun p => p.publicKey == k)

/-- The size of the symmetric difference of the two key sets. -/
def symmDiffCount (ex ds : List WireguardPeer) : Nat :=
  (ex.filter (fun p => !keyMem p.publicKey ds)).length +
    (ds.filter (fun q => !keyMem q.publicKey ex)).length

/-- The number of desired peers whose key also occurs on the existing side but
with different content. -/
def mismatchCount (ex ds : List WireguardPeer) : Nat :=
  (ds.filter (fun q => ex.any (fun p => p.publicKey == q.publicKey && p != q))).length

/-- Peer lists are ordered strictly ascending by their public key (the
identity/sort key). -/
def SortedByKey (ps : List WireguardPeer) : Prop :=
  ps.Pairwise (fun a b => a.publicKey < b.publicKey)

instance (ps : List WireguardPeer) : Decidable (SortedByKey ps) :=
  inferInstanceAs (Decidable (ps.Pairwise _))

/-! ### Facts about the entry constructors -/

theorem addPeer_some (peer : WireguardPeer) (h : peer.publicKey ≠ "") :
    addPeer peer = some
      { publicKey := peer.publicKey
        remove := false
        presharedKey := if peer.presharedKey = "" then none else some peer.presharedKey
        endpoint := if peer.endpoint = "" then none else some peer.endpoint
        persistentKeepaliveInterval := some peer.persistentKeepaliveInterval
        replaceAllowedIPs := true
        allowedIPs := peer.allowedIPs.map prefixIPNet } := by
  by_cases h1 : peer.presharedKey = "" <;> by_cases h2 : peer.endpoint = "" <;>
    simp [addPeer, parseKey, resolveUDPAddr, h, h1, h2]

theorem deletePeer_some (peer : WireguardPeer) (h : peer.publicKey ≠ "") :
    deletePeer peer = some
      { publicKey := peer.publicKey
        remove := true
        presharedKey := none
        endpoint := none
        persistentKeepaliveInterval := none
        replaceAllowedIPs := false
        allowedIPs := [] } := by
  simp [deletePeer, parseKey, h]

theorem addPeer_inv {peer : WireguardPeer} {e : PeerConfig} (h : addPeer peer = some e) :
    e.publicKey = peer.publicKey ∧ e.remove = false ∧ e.replaceAllowedIPs = true ∧
      peerConfigToSpec e = peer := by
  have hpk : peer.publicKey ≠ "" := by
    intro hp
    simp [addPeer, parseKey, hp] at h
  rw [addPeer_some peer hpk] at h
  injection h with h
  subst h
  refine ⟨rfl, rfl, rfl, ?_⟩
  obtain ⟨pk, psk, ep, ka, ips⟩ := peer
  by_cases h1 : psk = "" <;> by_cases h2 : ep = "" <;>
    simp [peerConfigToSpec, keyString, prefixIPNet, fromStdIPNet, h1, h2, List.map_map,
      Function.comp_def]

theorem deletePeer_inv {peer : WireguardPeer} {e : PeerConfig} (h : deletePeer peer = some e) :
    e.publicKey = peer.publicKey ∧ e.remove = true := by
  have hpk : peer.publicKey ≠ "" := by
    intro hp
    simp [deletePeer, parseKey, hp] at h
  rw [deletePeer_some peer hpk] at h
  injection h with h
  subst h
  exact ⟨rfl, rfl⟩

theorem mcons_some {entry : Option PeerConfig} {rest : Option (List PeerConfig)}
    {es : List PeerConfig} (h : mcons entry rest = some es) :
    ∃ e es2, entry = some e ∧ rest = some es2 ∧ es = e :: es2 := by
  cases entry with
  | none => simp [mcons] at h
  | some e =>
    cases rest with
    | none => simp [mcons] at h
    | some es2 =>
      refine ⟨e, es2, rfl, rfl, ?_⟩
      simp [mcons] at h
      exact h.symm

/-! ### Facts about applying a patch -/

theorem any_eq_of_perm {xs ys : List WireguardPeer} (h : xs.Perm ys)
    (f : WireguardPeer → Bool) : xs.any f = ys.any f := by
  apply Bool.eq_iff_iff.mpr
  simp only [List.any_eq_true]
  constructor
  · rintro ⟨x, hx, hf⟩
    exact ⟨x, h.mem_iff.mp hx, hf⟩
  · rintro ⟨x, hx, hf⟩
    exact ⟨x, h.mem_iff.mpr hx, hf⟩

theorem applyPeerConfig_cons_of_ne {p : WireguardPeer} {xs : List WireguardPeer}
    {e : PeerConfig} (h : p.publicKey ≠ keyString e.publicKey) :
    applyPeerConfig (p :: xs) e = p :: applyPeerConfig xs e := by
  unfold applyPeerConfig
  by_cases hr : e.remove = true
  · simp [hr, List.filter_cons, h]
  · have hb : (p.publicKey == keyString e.publicKey) = false := by
      simpa using h
    by_cases ha : xs.any (fun q => q.publicKey == keyString e.publicKey) = true <;>
      simp [hr, List.any_cons, hb, ha, h]

theorem applyPeerConfigs_cons_of_ne {p : WireguardPeer} {xs : List WireguardPeer}
    {es : List PeerConfig} (h : ∀ e ∈ es, p.publicKey ≠ keyString e.publicKey) :
    applyPeerConfigs (p :: xs) es = p :: applyPeerConfigs xs es := by
  induction es generalizing xs with
  | nil => rfl
  | cons e es ih =>
    simp only [applyPeerConfigs, List.foldl_cons]
    rw [applyPeerConfig_cons_of_ne (h e (by simp))]
    exact ih (fun e2 he2 => h e2 (by simp [he2]))

theorem applyPeerConfig_perm {xs ys : List WireguardPeer} (h : xs.Perm ys) (e : PeerConfig) :
    (applyPeerConfig xs e).Perm (applyPeerConfig ys e) := by
  unfold applyPeerConfig
  by_cases hr : e.remove = true
  · simp only [hr, if_true]
    exact h.filter _
  · rw [any_eq_of_perm h]
    by_cases ha : ys.any (fun q => q.publicKey == keyString e.publicKey) = true
    · simp only [ha, if_true, hr, if_false]
      exact h.map _
    · simp only [ha, if_false, hr]
      exact h.append_right _

theorem applyPeerConfigs_perm {xs ys : List WireguardPeer} (h : xs.Perm ys)
    (es : List PeerConfig) : (applyPeerConfigs xs es).Perm (applyPeerConfigs ys es) := by
  induction es generalizing xs ys with
  | nil => exact h
  | cons e es ih =>
    simpa only [applyPeerConfigs, List.foldl_cons] using ih (applyPeerConfig_perm h e)

/-! ### The merge-join: key bounds and ordering -/

theorem mergePeers_key_lb {k : String} :
    ∀ ex ds es, mergePeers ex ds = some es →
      (∀ p ∈ ex, k < p.publicKey) → (∀ q ∈ ds, k < q.publicKey) →
      ∀ e ∈ es, k < e.publicKey := by
  intro ex ds
  induction ex, ds using mergePeers.induct with
  | case1 =>
    intro es h _ _ e he
    simp only [mergePeers] at h
    injection h with h
    subst h
    simp at he
  | case2 right rs ih =>
    intro es h hex hds e he
    simp only [mergePeers] at h
    obtain ⟨e0, es2, he0, hes2, rfl⟩ := mcons_some h
    obtain ⟨hk, -, -, -⟩ := addPeer_inv he0
    rcases List.mem_cons.mp he with rfl | hmem
    · rw [hk]
      exact hds right (by simp)
    · exact ih es2 hes2 hex (fun q hq => hds q (by simp [hq])) e hmem
  | case3 left ls ih =>
    intro es h hex hds e he
    simp only [mergePeers] at h
    obtain ⟨e0, es2, he0, hes2, rfl⟩ := mcons_some h
    obtain ⟨hk, -⟩ := deletePeer_inv he0
    rcases List.mem_cons.mp he with rfl | hmem
    · rw [hk]
      exact hex left (by simp)
    · exact ih es2 hes2 (fun p hp => hex p (by simp [hp])) hds e hmem
  | case4 left ls right rs h1 ih =>
    intro es h hex hds e he
    simp only [mergePeers] at h
    rw [if_pos h1] at h
    obtain ⟨e0, es2, he0, hes2, rfl⟩ := mcons_some h
    obtain ⟨hk, -, -, -⟩ := addPeer_inv he0
    rcases List.mem_cons.mp he with rfl | hmem
    · rw [hk]
      exact hds right (by simp)
    · exact ih es2 hes2 hex (fun q hq => hds q (by simp [hq])) e hmem
  | case5 left ls right rs h1 h2 ih =>
    intro es h hex hds e he
    simp only [mergePeers] at h
    rw [if_neg h1, if_pos h2] at h
    obtain ⟨e0, es2, he0, hes2, rfl⟩ := mcons_some h
    obtain ⟨hk, -⟩ := deletePeer_inv he0
    rcases List.mem_cons.mp he with rfl | hmem
    · rw [hk]
      exact hex left (by simp)
    · exact ih es2 hes2 (fun p hp => hex p (by simp [hp])) hds e hmem
  | case6 ls right rs h1 h2 ih =>
    intro es h hex hds e he
    simp only [mergePeers] at h
    rw [if_neg h1, if_neg h2] at h
    simp only [if_true] at h
    exact ih es h (fun p hp => hex p (by simp [hp])) (fun q hq => hds q (by simp [hq])) e he
  | case7 left ls right rs h1 h2 h3 ih =>
    intro es h hex hds e he
    simp only [mergePeers] at h
    rw [if_neg h1, if_neg h2, if_neg h3] at h
    obtain ⟨e0, es2, he0, hes2, rfl⟩ := mcons_some h
    obtain ⟨hk, -, -, -⟩ := addPeer_inv he0
    rcases List.mem_cons.mp he with rfl | hmem
    · rw [hk]
      exact hds right (by simp)
    · exact ih es2 hes2 (fun p hp => hex p (by simp [hp])) (fun q hq => hds q (by simp [hq]))
        e hmem

theorem applyPeerConfig_append {xs : List WireguardPeer} {e : PeerConfig}
    (hrm : e.remove = false) (hxs : ∀ p ∈ xs, p.publicKey ≠ keyString e.publicKey) :
    applyPeerConfig xs e = xs ++ [peerConfigToSpec e] := by
  have hany : xs.any (fun p => p.publicKey == keyString e.publicKey) = false := by
    rw [List.any_eq_false]
    intro p hp
    simpa using hxs p hp
  simp [applyPeerConfig, hrm, hany]

theorem applyPeerConfig_replace {xs : List WireguardPeer} {l : WireguardPeer} {e : PeerConfig}
    (hkey : l.publicKey = keyString e.publicKey) (hrm : e.remove = false)
    (hxs : ∀ p ∈ xs, p.publicKey ≠ keyString e.publicKey) :
    applyPeerConfig (l :: xs) e = peerConfigToSpec e :: xs := by
  have hany : (l :: xs).any (fun p => p.publicKey == keyString e.publicKey) = true := by
    simp [List.any_cons, hkey]
  simp only [applyPeerConfig, hrm, Bool.false_eq_true, if_false, hany, if_true]
  rw [List.map_cons, if_pos hkey]
  congr 1
  rw [List.map_congr_left (g := id) (fun p hp => by simp [hxs p hp])]
  exact List.map_id xs

theorem applyPeerConfig_remove {xs : List WireguardPeer} {l : WireguardPeer} {e : PeerConfig}
    (hkey : l.publicKey = keyString e.publicKey) (hrm : e.remove = true)
    (hxs : ∀ p ∈ xs, p.publicKey ≠ keyString e.publicKey) :
    applyPeerConfig (l :: xs) e = xs := by
  simp only [applyPeerConfig, hrm, if_true]
  rw [List.filter_cons]
  have hl : (decide (l.publicKey ≠ keyString e.publicKey)) = false := by
    simp [hkey]
  rw [hl]
  simp only [Bool.false_eq_true, if_false]
  exact List.filter_eq_self.mpr (fun p hp => by simp [hxs p hp])

theorem mergePeers_sorted :
    ∀ ex ds es, mergePeers ex ds = some es → SortedByKey ex → SortedByKey ds →
      es.Pairwise (fun a b => a.publicKey < b.publicKey) := by
  intro ex ds
  induction ex, ds using mergePeers.induct with
  | case1 =>
    intro es h _ _
    simp only [mergePeers] at h
    injection h with h
    subst h
    exact List.Pairwise.nil
  | case2 right rs ih =>
    intro es h hex hds
    simp only [mergePeers] at h
    obtain ⟨e0, es2, he0, hes2, rfl⟩ := mcons_some h
    obtain ⟨hk, -, -, -⟩ := addPeer_inv he0
    rw [List.pairwise_cons]
    obtain ⟨hdsr, hdst⟩ := List.pairwise_cons.mp hds
    refine ⟨?_, ih es2 hes2 hex hdst⟩
    intro e he
    rw [hk]
    exact mergePeers_key_lb [] rs es2 hes2 (by simp) hdsr e he
  | case3 left ls ih =>
    intro es h hex hds
    simp only [mergePeers] at h
    obtain ⟨e0, es2, he0, hes2, rfl⟩ := mcons_some h
    obtain ⟨hk, -⟩ := deletePeer_inv he0
    rw [List.pairwise_cons]
    obtain ⟨hexl, hext⟩ := List.pairwise_cons.mp hex
    refine ⟨?_, ih es2 hes2 hext hds⟩
    intro e he
    rw [hk]
    exact mergePeers_key_lb ls [] es2 hes2 hexl (by simp) e he
  | case4 left ls right rs h1 ih =>
    intro es h hex hds
    simp only [mergePeers] at h
    rw [if_pos h1] at h
    obtain ⟨e0, es2, he0, hes2, rfl⟩ := mcons_some h
    obtain ⟨hk, -, -, -⟩ := addPeer_inv he0
    obtain ⟨hexl, hext⟩ := List.pairwise_cons.mp hex
    obtain ⟨hdsr, hdst⟩ := List.pairwise_cons.mp hds
    rw [List.pairwise_cons]
    refine ⟨?_, ih es2 hes2 hex hdst⟩
    intro e he
    rw [hk]
    refine mergePeers_key_lb (left :: ls) rs es2 hes2 ?_ hdsr e he
    intro p hp
    rcases List.mem_cons.mp hp with rfl | hp2
    · exact h1
    · exact lt_trans h1 (hexl p hp2)
  | case5 left ls right rs h1 h2 ih =>
    intro es h hex hds
    simp only [mergePeers] at h
    rw [if_neg h1, if_pos h2] at h
    obtain ⟨e0, es2, he0, hes2, rfl⟩ := mcons_some h
    obtain ⟨hk, -⟩ := deletePeer_inv he0
    obtain ⟨hexl, hext⟩ := List.pairwise_cons.mp hex
    obtain ⟨hdsr, hdst⟩ := List.pairwise_cons.mp hds
    rw [List.pairwise_cons]
    refine ⟨?_, ih es2 hes2 hext hds⟩
    intro e he
    rw [hk]
    refine mergePeers_key_lb ls (right :: rs) es2 hes2 hexl ?_ e he
    intro q hq
    rcases List.mem_cons.mp hq with rfl | hq2
    · exact h2
    · exact lt_trans h2 (hdsr q hq2)
  | case6 ls right rs h1 h2 ih =>
    intro es h hex hds
    simp only [mergePeers] at h
    rw [if_neg h1, if_neg h2] at h
    simp only [if_true] at h
    exact ih es h (List.pairwise_cons.mp hex).2 (List.pairwise_cons.mp hds).2
  | case7 left ls right rs h1 h2 h3 ih =>
    intro es h hex hds
    have hkey : left.publicKey = right.publicKey :=
      le_antisymm (not_lt.mp h1) (not_lt.mp h2)
    simp only [mergePeers] at h
    rw [if_neg h1, if_neg h2, if_neg h3] at h
    obtain ⟨e0, es2, he0, hes2, rfl⟩ := mcons_some h
    obtain ⟨hk, -, -, -⟩ := addPeer_inv he0
    obtain ⟨hexl, hext⟩ := List.pairwise_cons.mp hex
    obtain ⟨hdsr, hdst⟩ := List.pairwise_cons.mp hds
    rw [List.pairwise_cons]
    refine ⟨?_, ih es2 hes2 hext hdst⟩
    intro e he
    rw [hk]
    refine mergePeers_key_lb ls rs es2 hes2 ?_ hdsr e he
    intro p hp
    rw [← hkey]
    exact hexl p hp

/-- Applying the merge-diff entries to the existing peer list reproduces the
desired peer list (up to order). -/
theorem applyPeerConfigs_mergePeers :
    ∀ ex ds es, mergePeers ex ds = some es → SortedByKey ex → SortedByKey ds →
      (applyPeerConfigs ex es).Perm ds := by
  intro ex ds
  induction ex, ds using mergePeers.induct with
  | case1 =>
    intro es h _ _
    simp only [mergePeers] at h
    injection h with h
    subst h
    exact List.Perm.refl _
  | case2 right rs ih =>
    intro es h hex hds
    simp only [mergePeers] at h
    obtain ⟨e0, es2, he0, hes2, rfl⟩ := mcons_some h
    obtain ⟨hk, hrm, -, hspec⟩ := addPeer_inv he0
    obtain ⟨hdsr, hdst⟩ := List.pairwise_cons.mp hds
    have hlb : ∀ e ∈ es2, right.publicKey < e.publicKey :=
      mergePeers_key_lb [] rs es2 hes2 (by simp) hdsr
    have h1 : applyPeerConfig [] e0 = [peerConfigToSpec e0] :=
      applyPeerConfig_append hrm (by simp)
    have h2 : applyPeerConfigs [] (e0 :: es2) = right :: applyPeerConfigs [] es2 := by
      simp only [applyPeerConfigs, List.foldl_cons, h1]
      rw [show [peerConfigToSpec e0] = peerConfigToSpec e0 :: ([] : List WireguardPeer) from rfl]
      rw [show (List.foldl applyPeerConfig (peerConfigToSpec e0 :: []) es2 =
        applyPeerConfigs (peerConfigToSpec e0 :: []) es2) from rfl]
      rw [applyPeerConfigs_cons_of_ne (fun e he => by
        rw [hspec, keyString]
        exact (hlb e he).ne)]
      rw [hspec]
      rfl
    rw [h2]
    exact (ih es2 hes2 hex hdst).cons right
  | case3 left ls ih =>
    intro es h hex hds
    simp only [mergePeers] at h
    obtain ⟨e0, es2, he0, hes2, rfl⟩ := mcons_some h
    obtain ⟨hk, hrm⟩ := deletePeer_inv he0
    obtain ⟨hexl, hext⟩ := List.pairwise_cons.mp hex
    have h1 : applyPeerConfig (left :: ls) e0 = ls :=
      applyPeerConfig_remove (by rw [hk]; rfl) hrm
        (fun p hp => by rw [keyString, hk]; exact (hexl p hp).ne')
    have h2 : applyPeerConfigs (left :: ls) (e0 :: es2) = applyPeerConfigs ls es2 := by
      simp only [applyPeerConfigs, List.foldl_cons, h1]
    rw [h2]
    exact ih es2 hes2 hext hds
  | case4 left ls right rs h1 ih =>
    intro es h hex hds
    simp only [mergePeers] at h
    rw [if_pos h1] at h
    obtain ⟨e0, es2, he0, hes2, rfl⟩ := mcons_some h
    obtain ⟨hk, hrm, -, hspec⟩ := addPeer_inv he0
    obtain ⟨hexl, hext⟩ := List.pairwise_cons.mp hex
    obtain ⟨hdsr, hdst⟩ := List.pairwise_cons.mp hds
    have hbound : ∀ p ∈ left :: ls, right.publicKey < p.publicKey := by
      intro p hp
      rcases List.mem_cons.mp hp with rfl | hp2
      · exact h1
      · exact lt_trans h1 (hexl p hp2)
    have hlb : ∀ e ∈ es2, right.publicKey < e.publicKey :=
      mergePeers_key_lb (left :: ls) rs es2 hes2 hbound hdsr
    have happly : applyPeerConfig (left :: ls) e0 = (left :: ls) ++ [right] := by
      rw [applyPeerConfig_append hrm
        (fun p hp => by rw [keyString, hk]; exact (hbound p hp).ne'), hspec]
    have h2 : applyPeerConfigs (left :: ls) (e0 :: es2) =
        applyPeerConfigs ((left :: ls) ++ [right]) es2 := by
      simp only [applyPeerConfigs, List.foldl_cons, happly]
    rw [h2]
    refine (applyPeerConfigs_perm (List.perm_append_singleton right (left :: ls)) es2).trans ?_
    rw [applyPeerConfigs_cons_of_ne (fun e he => by
      rw [keyString]
      exact (hlb e he).ne)]
    exact (ih es2 hes2 hex hdst).cons right
  | case5 left ls right rs h1 h2 ih =>
    intro es h hex hds
    simp only [mergePeers] at h
    rw [if_neg h1, if_pos h2] at h
    obtain ⟨e0, es2, he0, hes2, rfl⟩ := mcons_some h
    obtain ⟨hk, hrm⟩ := deletePeer_inv he0
    obtain ⟨hexl, hext⟩ := List.pairwise_cons.mp hex
    have happly : applyPeerConfig (left :: ls) e0 = ls :=
      applyPeerConfig_remove (by rw [hk]; rfl) hrm
        (fun p hp => by rw [keyString, hk]; exact (hexl p hp).ne')
    have hstep : applyPeerConfigs (left :: ls) (e0 :: es2) = applyPeerConfigs ls es2 := by
      simp only [applyPeerConfigs, List.foldl_cons, happly]
    rw [hstep]
    exact ih es2 hes2 hext hds
  | case6 ls right rs h1 h2 ih =>
    intro es h hex hds
    simp only [mergePeers] at h
    rw [if_neg h1, if_neg h2] at h
    simp only [if_true] at h
    obtain ⟨hexl, hext⟩ := List.pairwise_cons.mp hex
    obtain ⟨hdsr, hdst⟩ := List.pairwise_cons.mp hds
    have hlb : ∀ e ∈ es, right.publicKey < e.publicKey :=
      mergePeers_key_lb ls rs es h hexl hdsr
    rw [applyPeerConfigs_cons_of_ne (fun e he => by
      rw [keyString]
      exact (hlb e he).ne)]
    exact (ih es h hext hdst).cons right
  | case7 left ls right rs h1 h2 h3 ih =>
    intro es h hex hds
    have hkey : left.publicKey = right.publicKey :=
      le_antisymm (not_lt.mp h1) (not_lt.mp h2)
    simp only [mergePeers] at h
    rw [if_neg h1, if_neg h2, if_neg h3] at h
    obtain ⟨e0, es2, he0, hes2, rfl⟩ := mcons_some h
    obtain ⟨hk, hrm, -, hspec⟩ := addPeer_inv he0
    obtain ⟨hexl, hext⟩ := List.pairwise_cons.mp hex
    obtain ⟨hdsr, hdst⟩ := List.pairwise_cons.mp hds
    have hlb : ∀ e ∈ es2, right.publicKey < e.publicKey :=
      mergePeers_key_lb ls rs es2 hes2
        (fun p hp => by rw [← hkey]; exact hexl p hp) hdsr
    have happly : applyPeerConfig (left :: ls) e0 = right :: ls := by
      rw [applyPeerConfig_replace (by rw [keyString, hk, hkey]) hrm
        (fun p hp => by rw [keyString, hk, ← hkey]; exact (hexl p hp).ne'), hspec]
    have hstep : applyPeerConfigs (left :: ls) (e0 :: es2) =
        applyPeerConfigs (right :: ls) es2 := by
      simp only [applyPeerConfigs, List.foldl_cons, happly]
    rw [hstep]
    rw [applyPeerConfigs_cons_of_ne (fun e he => by
      rw [keyString]
      exact (hlb e he).ne)]
    exact (ih es2 hes2 hext hdst).cons right

/-! ### The merge-join: entry count -/

theorem keyMem_eq_false {k : String} {ps : List WireguardPeer}
    (h : ∀ p ∈ ps, p.publicKey ≠ k) : keyMem k ps = false := by
  rw [keyMem, List.any_eq_false]
  intro p hp
  simpa using h p hp

theorem keyMem_cons_of_ne {k : String} {x : WireguardPeer} {ps : List WireguardPeer}
    (h : x.publicKey ≠ k) : keyMem k (x :: ps) = keyMem k ps := by
  simp [keyMem, List.any_cons, h]

theorem keyMem_cons_self {x : WireguardPeer} {ps : List WireguardPeer} :
    keyMem x.publicKey (x :: ps) = true := by
  simp [keyMem, List.any_cons]

theorem mismatchAny_cons_of_ne {q x : WireguardPeer} {ps : List WireguardPeer}
    (h : x.publicKey ≠ q.publicKey) :
    ((x :: ps).any fun p => p.publicKey == q.publicKey && p != q) =
      (ps.any fun p => p.publicKey == q.publicKey && p != q) := by
  simp [List.any_cons, h]

theorem mismatchAny_eq_false {q : WireguardPeer} {ps : List WireguardPeer}
    (h : ∀ p ∈ ps, p.publicKey ≠ q.publicKey) :
    (ps.any fun p => p.publicKey == q.publicKey && p != q) = false := by
  rw [List.any_eq_false]
  intro p hp
  simp [h p hp]

/-- The number of emitted entries is the size of the symmetric difference of
the key sets plus the number of same-key content mismatches. -/
theorem mergePeers_length :
    ∀ ex ds es, mergePeers ex ds = some es → SortedByKey ex → SortedByKey ds →
      es.length = symmDiffCount ex ds + mismatchCount ex ds := by
  intro ex ds
  induction ex, ds using mergePeers.induct with
  | case1 =>
    intro es h _ _
    simp only [mergePeers] at h
    injection h with h
    subst h
    simp [symmDiffCount, mismatchCount]
  | case2 right rs ih =>
    intro es h hex hds
    simp only [mergePeers] at h
    obtain ⟨e0, es2, he0, hes2, rfl⟩ := mcons_some h
    obtain ⟨hdsr, hdst⟩ := List.pairwise_cons.mp hds
    have hIH := ih es2 hes2 hex hdst
    simp only [symmDiffCount, mismatchCount, keyMem, List.any_nil, Bool.not_false,
      List.filter_nil, List.length_nil, List.any_cons] at hIH ⊢
    simp only [List.filter_true] at hIH ⊢
    simp [hIH]
  | case3 left ls ih =>
    intro es h hex hds
    simp only [mergePeers] at h
    obtain ⟨e0, es2, he0, hes2, rfl⟩ := mcons_some h
    obtain ⟨hexl, hext⟩ := List.pairwise_cons.mp hex
    have hIH := ih es2 hes2 hext hds
    simp only [symmDiffCount, mismatchCount, keyMem, List.any_nil, Bool.not_false,
      List.filter_nil, List.length_nil] at hIH ⊢
    simp only [List.filter_true] at hIH ⊢
    simp [hIH]
  | case4 left ls right rs h1 ih =>
    intro es h hex hds
    simp only [mergePeers] at h
    rw [if_pos h1] at h
    obtain ⟨e0, es2, he0, hes2, rfl⟩ := mcons_some h
    obtain ⟨hexl, hext⟩ := List.pairwise_cons.mp hex
    obtain ⟨hdsr, hdst⟩ := List.pairwise_cons.mp hds
    have hbound : ∀ p ∈ left :: ls, right.publicKey < p.publicKey := by
      intro p hp
      rcases List.mem_cons.mp hp with rfl | hp2
      · exact h1
      · exact lt_trans h1 (hexl p hp2)
    have hIH := ih es2 hes2 hex hdst
    simp only [symmDiffCount, mismatchCount] at hIH ⊢
    have hA : ((left :: ls).filter fun p => !keyMem p.publicKey (right :: rs)) =
        ((left :: ls).filter fun p => !keyMem p.publicKey rs) :=
      List.filter_congr fun p hp => by
        rw [keyMem_cons_of_ne (hbound p hp).ne]
    have hB : ((right :: rs).filter fun q => !keyMem q.publicKey (left :: ls)) =
        right :: (rs.filter fun q => !keyMem q.publicKey (left :: ls)) := by
      rw [List.filter_cons,
        keyMem_eq_false (fun p hp => (hbound p hp).ne')]
      simp
    have hM : ((right :: rs).filter fun q =>
          (left :: ls).any fun p => p.publicKey == q.publicKey && p != q) =
        (rs.filter fun q =>
          (left :: ls).any fun p => p.publicKey == q.publicKey && p != q) := by
      rw [List.filter_cons,
        mismatchAny_eq_false (fun p hp => (hbound p hp).ne')]
      simp
    rw [hA, hB, hM]
    simp only [List.length_cons]
    omega
  | case5 left ls right rs h1 h2 ih =>
    intro es h hex hds
    simp only [mergePeers] at h
    rw [if_neg h1, if_pos h2] at h
    obtain ⟨e0, es2, he0, hes2, rfl⟩ := mcons_some h
    obtain ⟨hexl, hext⟩ := List.pairwise_cons.mp hex
    obtain ⟨hdsr, hdst⟩ := List.pairwise_cons.mp hds
    have hbound : ∀ q ∈ right :: rs, left.publicKey < q.publicKey := by
      intro q hq
      rcases List.mem_cons.mp hq with rfl | hq2
      · exact h2
      · exact lt_trans h2 (hdsr q hq2)
    have hIH := ih es2 hes2 hext hds
    simp only [symmDiffCount, mismatchCount] at hIH ⊢
    have hA : ((left :: ls).filter fun p => !keyMem p.publicKey (right :: rs)) =
        left :: (ls.filter fun p => !keyMem p.publicKey (right :: rs)) := by
      rw [List.filter_cons,
        keyMem_eq_false (fun q hq => (hbound q hq).ne')]
      simp
    have hB : ((right :: rs).filter fun q => !keyMem q.publicKey (left :: ls)) =
        ((right :: rs).filter fun q => !keyMem q.publicKey ls) :=
      List.filter_congr fun q hq => by
        rw [keyMem_cons_of_ne (hbound q hq).ne]
    have hM : ((right :: rs).filter fun q =>
          (left :: ls).any fun p => p.publicKey == q.publicKey && p != q) =
        ((right :: rs).filter fun q =>
          ls.any fun p => p.publicKey == q.publicKey && p != q) :=
      List.filter_congr fun q hq => by
        rw [mismatchAny_cons_of_ne (hbound q hq).ne]
    rw [hA, hB, hM]
    simp only [List.length_cons]
    omega
  | case6 ls right rs h1 h2 ih =>
    intro es h hex hds
    simp only [mergePeers] at h
    rw [if_neg h1, if_neg h2] at h
    simp only [if_true] at h
    obtain ⟨hexl, hext⟩ := List.pairwise_cons.mp hex
    obtain ⟨hdsr, hdst⟩ := List.pairwise_cons.mp hds
    have hIH := ih es h hext hdst
    simp only [symmDiffCount, mismatchCount] at hIH ⊢
    have hA : ((right :: ls).filter fun p => !keyMem p.publicKey (right :: rs)) =
        (ls.filter fun p => !keyMem p.publicKey rs) := by
      rw [List.filter_cons, keyMem_cons_self]
      simp only [Bool.not_true, Bool.false_eq_true, if_false]
      exact List.filter_congr fun p hp => by
        rw [keyMem_cons_of_ne (hexl p hp).ne]
    have hB : ((right :: rs).filter fun q => !keyMem q.publicKey (right :: ls)) =
        (rs.filter fun q => !keyMem q.publicKey ls) := by
      rw [List.filter_cons, keyMem_cons_self]
      simp only [Bool.not_true, Bool.false_eq_true, if_false]
      exact List.filter_congr fun q hq => by
        rw [keyMem_cons_of_ne (hdsr q hq).ne]
    have hM : ((right :: rs).filter fun q =>
          (right :: ls).any fun p => p.publicKey == q.publicKey && p != q) =
        (rs.filter fun q => ls.any fun p => p.publicKey == q.publicKey && p != q) := by
      rw [List.filter_cons]
      rw [show ((right :: ls).any fun p => p.publicKey == right.publicKey && p != right) =
          false from by
        rw [List.any_cons]
        simp only [bne_self_eq_false, Bool.and_false, Bool.false_or]
        exact mismatchAny_eq_false (fun p hp => (hexl p hp).ne')]
      simp only [Bool.false_eq_true, if_false]
      exact List.filter_congr fun q hq => by
        rw [mismatchAny_cons_of_ne (hdsr q hq).ne]
    rw [hA, hB, hM]
    omega
  | case7 left ls right rs h1 h2 h3 ih =>
    intro es h hex hds
    have hkey : left.publicKey = right.publicKey :=
      le_antisymm (not_lt.mp h1) (not_lt.mp h2)
    simp only [mergePeers] at h
    rw [if_neg h1, if_neg h2, if_neg h3] at h
    obtain ⟨e0, es2, he0, hes2, rfl⟩ := mcons_some h
    obtain ⟨hexl, hext⟩ := List.pairwise_cons.mp hex
    obtain ⟨hdsr, hdst⟩ := List.pairwise_cons.mp hds
    have hIH := ih es2 hes2 hext hdst
    simp only [symmDiffCount, mismatchCount] at hIH ⊢
    have hA : ((left :: ls).filter fun p => !keyMem p.publicKey (right :: rs)) =
        (ls.filter fun p => !keyMem p.publicKey rs) := by
      rw [List.filter_cons,
        show keyMem left.publicKey (right :: rs) = true from by
          simp [keyMem, List.any_cons, hkey]]
      simp only [Bool.not_true, Bool.false_eq_true, if_false]
      exact List.filter_congr fun p hp => by
        rw [keyMem_cons_of_ne (show right.publicKey ≠ p.publicKey from by
          rw [← hkey]
          exact (hexl p hp).ne)]
    have hB : ((right :: rs).filter fun q => !keyMem q.publicKey (left :: ls)) =
        (rs.filter fun q => !keyMem q.publicKey ls) := by
      rw [List.filter_cons,
        show keyMem right.publicKey (left :: ls) = true from by
          simp [keyMem, List.any_cons, hkey]]
      simp only [Bool.not_true, Bool.false_eq_true, if_false]
      exact List.filter_congr fun q hq => by
        rw [keyMem_cons_of_ne (show left.publicKey ≠ q.publicKey from by
          rw [hkey]
          exact (hdsr q hq).ne)]
    have hM : ((right :: rs).filter fun q =>
          (left :: ls).any fun p => p.publicKey == q.publicKey && p != q) =
        right :: (rs.filter fun q =>
          ls.any fun p => p.publicKey == q.publicKey && p != q) := by
      rw [List.filter_cons,
        show ((left :: ls).any fun p => p.publicKey == right.publicKey && p != right) =
            true from by
          rw [List.any_cons]
          simp [hkey, bne_iff_ne, h3]]
      simp only [if_true]
      congr 1
      exact List.filter_congr fun q hq => by
        rw [mismatchAny_cons_of_ne (show left.publicKey ≠ q.publicKey from by
          rw [hkey]
          exact (hdsr q hq).ne)]
    rw [hA, hB, hM]
    simp only [List.length_cons]
    omega

/-! ### Unpacking a successful `Encode` -/

theorem Encode_some {spec existing : WireguardSpec} {cfg : Config}
    (h : Encode spec existing = some cfg) :
    mergePeers existing.peers spec.peers = some cfg.peers ∧
      cfg.listenPort =
        (if existing.listenPort ≠ spec.listenPort then some spec.listenPort else none) ∧
      cfg.firewallMark =
        (if existing.firewallMark ≠ spec.firewallMark then some spec.firewallMark else none) := by
  unfold Encode at h
  cases hpk : (if existing.privateKey ≠ spec.privateKey then
      (parseKey spec.privateKey).map some else some none) with
  | none =>
    rw [hpk] at h
    simp at h
  | some pk =>
    rw [hpk] at h
    cases hm : mergePeers existing.peers spec.peers with
    | none =>
      rw [hm] at h
      simp at h
    | some ps =>
      rw [hm] at h
      injection h with h
      subst h
      exact ⟨rfl, rfl, rfl⟩

theorem mergePeers_entry_shape :
    ∀ ex ds es, mergePeers ex ds = some es →
      ∀ e ∈ es, e.remove = true ∨ (e.remove = false ∧ e.replaceAllowedIPs = true) := by
  intro ex ds
  induction ex, ds using mergePeers.induct with
  | case1 =>
    intro es h e he
    simp only [mergePeers] at h
    injection h with h
    subst h
    simp at he
  | case2 right rs ih =>
    intro es h e he
    simp only [mergePeers] at h
    obtain ⟨e0, es2, he0, hes2, rfl⟩ := mcons_some h
    rcases List.mem_cons.mp he with rfl | hmem
    · obtain ⟨-, hrm, hrep, -⟩ := addPeer_inv he0
      exact Or.inr ⟨hrm, hrep⟩
    · exact ih es2 hes2 e hmem
  | case3 left ls ih =>
    intro es h e he
    simp only [mergePeers] at h
    obtain ⟨e0, es2, he0, hes2, rfl⟩ := mcons_some h
    rcases List.mem_cons.mp he with rfl | hmem
    · exact Or.inl (deletePeer_inv he0).2
    · exact ih es2 hes2 e hmem
  | case4 left ls right rs h1 ih =>
    intro es h e he
    simp only [mergePeers] at h
    rw [if_pos h1] at h
    obtain ⟨e0, es2, he0, hes2, rfl⟩ := mcons_some h
    rcases List.mem_cons.mp he with rfl | hmem
    · obtain ⟨-, hrm, hrep, -⟩ := addPeer_inv he0
      exact Or.inr ⟨hrm, hrep⟩
    · exact ih es2 hes2 e hmem
  | case5 left ls right rs h1 h2 ih =>
    intro es h e he
    simp only [mergePeers] at h
    rw [if_neg h1, if_pos h2] at h
    obtain ⟨e0, es2, he0, hes2, rfl⟩ := mcons_some h
    rcases List.mem_cons.mp he with rfl | hmem
    · exact Or.inl (deletePeer_inv he0).2
    · exact ih es2 hes2 e hmem
  | case6 ls right rs h1 h2 ih =>
    intro es h e he
    simp only [mergePeers] at h
    rw [if_neg h1, if_neg h2] at h
    simp only [if_true] at h
    exact ih es h e he
  | case7 left ls right rs h1 h2 h3 ih =>
    intro es h e he
    simp only [mergePeers] at h
    rw [if_neg h1, if_neg h2, if_neg h3] at h
    obtain ⟨e0, es2, he0, hes2, rfl⟩ := mcons_some h
    rcases List.mem_cons.mp he with rfl | hmem
    · obtain ⟨-, hrm, hrep, -⟩ := addPeer_inv he0
      exact Or.inr ⟨hrm, hrep⟩
    · exact ih es2 hes2 e hmem

/-! ### Claim C1 -/

/-- **C1**: for peer lists sorted ascending by public key,
`Encode(desired, existing)` emits add/replace entries (carrying
`ReplaceAllowedIPs`) and remove entries whose application to `existing`
reproduces exactly the key set and per-peer content of `desired` (a
permutation of the desired peer list), whose count equals the size of the
symmetric difference of the key sets plus the number of equal-key content
mismatches, and which are emitted in ascending key order. -/
theorem encode_merge_diff_correct (spec existing : WireguardSpec) (cfg : Config)
    (hs : SortedByKey spec.peers) (he : SortedByKey existing.peers)
    (h : Encode spec existing = some cfg) :
    (applyPeerConfigs existing.peers cfg.peers).Perm spec.peers ∧
      cfg.peers.length =
        symmDiffCount existing.peers spec.peers + mismatchCount existing.peers spec.peers ∧
      cfg.peers.Pairwise (fun a b => a.publicKey < b.publicKey) ∧
      ∀ e ∈ cfg.peers, e.remove = true ∨ (e.remove = false ∧ e.replaceAllowedIPs = true) := by
  obtain ⟨hm, -, -⟩ := Encode_some h
  exact ⟨applyPeerConfigs_mergePeers _ _ _ hm he hs,
    mergePeers_length _ _ _ hm he hs,
    mergePeers_sorted _ _ _ hm he hs,
    mergePeers_entry_shape _ _ _ hm⟩

/-- Example A of the spec: desired peers `A` (content changed) and `C`. -/
def exampleDesired : WireguardSpec :=
  { publicKey := ""
    privateKey := "P"
    listenPort := 51820
    firewallMark := 0
    peers := [⟨"A", "", "", 15, ["10.0.0.1/32"]⟩, ⟨"C", "", "", 0, []⟩] }

/-- Example A of the spec: existing peers `A` (with differing fields) and `B`. -/
def exampleExisting : WireguardSpec :=
  { publicKey := ""
    privateKey := "P"
    listenPort := 51820
    firewallMark := 0
    peers := [⟨"A", "", "", 25, []⟩, ⟨"B", "", "", 0, []⟩] }

/-- The diff of example A: replace(A), remove(B), add(C), in key order. -/
def exampleDiff : Config :=
  { privateKey := none
    listenPort := none
    firewallMark := none
    peers :=
      [⟨"A", false, none, none, some 15, true, ["10.0.0.1/32"]⟩,
        ⟨"B", true, none, none, none, false, []⟩,
        ⟨"C", false, none, none, some 0, true, []⟩] }

theorem encode_merge_diff_correct_witness :
    SortedByKey exampleDesired.peers ∧ SortedByKey exampleExisting.peers ∧
      Encode exampleDesired exampleExisting = some exampleDiff ∧
      ((applyPeerConfigs exampleExisting.peers exampleDiff.peers).Perm exampleDesired.peers ∧
        exampleDiff.peers.length =
          symmDiffCount exampleExisting.peers exampleDesired.peers +
            mismatchCount exampleExisting.peers exampleDesired.peers ∧
        exampleDiff.peers.Pairwise (fun a b => a.publicKey < b.publicKey) ∧
        ∀ e ∈ exampleDiff.peers,
          e.remove = true ∨ (e.remove = false ∧ e.replaceAllowedIPs = true)) :=
  ⟨by simp +decide [SortedByKey, exampleDesired],
    by simp +decide [SortedByKey, exampleExisting],
    by simp +decide [Encode, mergePeers, mcons, addPeer, deletePeer, parseKey,
      resolveUDPAddr, prefixIPNet, exampleDesired, exampleExisting, exampleDiff],
    encode_merge_diff_correct exampleDesired exampleExisting exampleDiff
      (by simp +decide [SortedByKey, exampleDesired])
      (by simp +decide [SortedByKey, exampleExisting])
      (by simp +decide [Encode, mergePeers, mcons, addPeer, deletePeer, parseKey,
        resolveUDPAddr, prefixIPNet, exampleDesired, exampleExisting, exampleDiff])⟩

/-! ### Claim C5 -/

/-- **C5**: the patch carries the listen port exactly when the desired listen
port differs from the existing one (a desired value of 0 included), and then
carries the desired value; the same rule holds for the firewall mark. -/
theorem encode_listen_port_firewall_mark (spec existing : WireguardSpec) (cfg : Config)
    (h : Encode spec existing = some cfg) :
    (cfg.listenPort =
        if existing.listenPort = spec.listenPort then none else some spec.listenPort) ∧
      (cfg.firewallMark =
        if existing.firewallMark = spec.firewallMark then none else some spec.firewallMark) := by
  obtain ⟨-, h1, h2⟩ := Encode_some h
  constructor
  · rw [h1]
    by_cases hq : existing.listenPort = spec.listenPort <;> simp [hq]
  · rw [h2]
    by_cases hq : existing.firewallMark = spec.firewallMark <;> simp [hq]

/-- Example B of the spec: desired listen port 0 against existing 51820. -/
def exampleListenDesired : WireguardSpec :=
  { publicKey := "", privateKey := "P", listenPort := 0, firewallMark := 0, peers := [] }

/-- Example B of the spec: the existing device uses listen port 51820. -/
def exampleListenExisting : WireguardSpec :=
  { publicKey := "", privateKey := "P", listenPort := 51820, firewallMark := 0, peers := [] }

/-- The patch of example B: it explicitly carries listen port 0. -/
def exampleListenDiff : Config :=
  { privateKey := none, listenPort := some 0, firewallMark := none, peers := [] }

theorem encode_listen_port_firewall_mark_witness :
    Encode exampleListenDesired exampleListenExisting = some exampleListenDiff ∧
      (exampleListenDiff.listenPort =
        if exampleListenExisting.listenPort = exampleListenDesired.listenPort then none
        else some exampleListenDesired.listenPort) ∧
      exampleListenDiff.listenPort = some 0 :=
  ⟨by simp +decide [Encode, mergePeers, parseKey, exampleListenDesired,
      exampleListenExisting, exampleListenDiff],
    (encode_listen_port_firewall_mark exampleListenDesired exampleListenExisting
      exampleListenDiff
      (by simp +decide [Encode, mergePeers, parseKey, exampleListenDesired,
        exampleListenExisting, exampleListenDiff])).1,
    by decide⟩

/-! ### Claim C9 -/

/-- **C9**: `Decode` maps each raw device peer into spec form with an all-zero
preshared key represented as absent (the empty string), an absent endpoint
kept absent, and `isStatus` selecting whether the local key field receives the
device's public key (status view) or private key (config view). -/
theorem decode_maps_device_state (spec0 : WireguardSpec) (dev : Device) (isStatus : Bool) :
    (Decode spec0 dev isStatus).peers = dev.peers.map decodePeer ∧
      (∀ p ∈ dev.peers,
        (p.presharedKey = zeroKey → (decodePeer p).presharedKey = "") ∧
        (p.presharedKey ≠ zeroKey →
          (decodePeer p).presharedKey = keyString p.presharedKey) ∧
        (p.endpoint = none → (decodePeer p).endpoint = "") ∧
        (∀ a, p.endpoint = some a → (decodePeer p).endpoint = a) ∧
        (decodePeer p).publicKey = keyString p.publicKey) ∧
      (isStatus = true →
        (Decode spec0 dev isStatus).publicKey = keyString dev.publicKey ∧
          (Decode spec0 dev isStatus).privateKey = spec0.privateKey) ∧
      (isStatus = false →
        (Decode spec0 dev isStatus).privateKey = keyString dev.privateKey ∧
          (Decode spec0 dev isStatus).publicKey = spec0.publicKey) := by
  refine ⟨rfl, ?_, ?_, ?_⟩
  · intro p _
    refine ⟨?_, ?_, ?_, ?_, rfl⟩
    · intro hz
      simp [decodePeer, hz]
    · intro hz
      simp [decodePeer, hz]
    · intro hn
      simp [decodePeer, hn]
    · intro a ha
      simp [decodePeer, ha]
  · intro hst
    subst hst
    exact ⟨rfl, rfl⟩
  · intro hst
    subst hst
    exact ⟨rfl, rfl⟩

/-- A device state with one peer carrying the all-zero preshared key and no
endpoint, and one peer with a real preshared key and an endpoint. -/
def exampleDevice : Device :=
  { privateKey := "PRIV"
    publicKey := "PUB"
    listenPort := 51820
    firewallMark := 5
    peers :=
      [⟨"A", zeroKey, none, 15, ["10.0.0.1/32"]⟩,
        ⟨"B", "PSK", some "1.2.3.4:51821", 0, []⟩] }

/-- The empty spec the controller decodes into (`var existingSpec`). -/
def emptyWireguardSpec : WireguardSpec :=
  { publicKey := "", privateKey := "", listenPort := 0, firewallMark := 0, peers := [] }

theorem decode_maps_device_state_witness :
    (Decode emptyWireguardSpec exampleDevice false).peers =
        exampleDevice.peers.map decodePeer ∧
      (decodePeer ⟨"A", zeroKey, none, 15, ["10.0.0.1/32"]⟩).presharedKey = "" ∧
      (decodePeer ⟨"A", zeroKey, none, 15, ["10.0.0.1/32"]⟩).endpoint = "" ∧
      (decodePeer ⟨"B", "PSK", some "1.2.3.4:51821", 0, []⟩).presharedKey = "PSK" ∧
      (Decode emptyWireguardSpec exampleDevice false).privateKey = "PRIV" ∧
      (Decode emptyWireguardSpec exampleDevice false).publicKey = "" := by
  have h := decode_maps_device_state emptyWireguardSpec exampleDevice false
  obtain ⟨h1, h2, -, h4⟩ := h
  refine ⟨h1, ?_, ?_, ?_, ?_, ?_⟩
  · exact (h2 _ (by decide)).1 (by decide)
  · exact (h2 _ (by decide)).2.2.1 (by decide)
  · exact (h2 _ (by decide)).2.1 (by decide)
  · exact (h4 rfl).1
  · exact (h4 rfl).2

/-! ### Kernel link model (rtnetlink) -/

/-- `rtnetlink.LinkInfo`: kind metadata of a logical link. -/
structure LinkInfo where
  kind : String
deriving DecidableEq, Repr

/-- `rtnetlink.LinkAttributes` (the fields the controller reads). -/
structure LinkAttributes where
  name : String
  info : Option LinkInfo
  mtu : Nat
deriving DecidableEq, Repr

/-- `rtnetlink.LinkMessage` (the fields the controller reads); `typ` is the
link-layer type code (`Type`, uint16), bit 0 of `flags` is `IFF_UP`. -/
structure LinkMessage where
  family : Nat
  typ : Nat
  index : Nat
  flags : Nat
  attributes : LinkAttributes
deriving DecidableEq, Repr

/-- `FindLink`: look up a link in the snapshot by name (first match, as
`slices.IndexFunc`). -/
def FindLink (links : List LinkMessage) (name : String) : Option LinkMessage :=
  links.find? (fun link => link.attributes.name == name)

/-- `network.LinkKindWireguard` of the talos machinery. -/
def LinkKindWireguard : String := "wireguard"

/-- `network.LinkSpecSpec` (the fields the controller reads): name, logical
flag, desired up flag, desired MTU (0 = do not manage), kind, type code, and
the wireguard sub-spec. -/
structure LinkSpecData where
  name : String
  logical : Bool
  up : Bool
  mtu : Nat
  kind : String
  typ : Nat
  wireguard : WireguardSpec
deriving DecidableEq, Repr

/-- Resource phase of a declared item. -/
inductive Phase where
  | running
  | tearingDown
deriving DecidableEq, Repr

/-- A declared item: its metadata phase plus its typed spec. -/
structure LinkItem where
  phase : Phase
  spec : LinkSpecData
deriving DecidableEq, Repr

/-- Modelled from the spec: the kernel side of the netlink interface.  The
link list is authoritative; `nextIndex` is the index the kernel assigns to
the next created link. -/
structure Kernel where
  links : List LinkMessage
  nextIndex : Nat
deriving DecidableEq, Repr

/-- Modelled from the spec: `conn.Link.Delete` removes the link with the
given index. -/
def Kernel.deleteLink (k : Kernel) (index : Nat) : Kernel :=
  { k with links := k.links.filter (fun l => l.index ≠ index) }

/-- Modelled from the spec: `conn.Link.New` creates a link with the submitted
type, name and kind attributes; the kernel assigns a fresh index, down flags
and a default MTU. -/
def Kernel.createLink (k : Kernel) (typ : Nat) (name kind : String) : Kernel :=
  { links := k.links ++
      [{ family := 0
         typ := typ
         index := k.nextIndex
         flags := 0
         attributes := { name := name, info := some { kind := kind }, mtu := 0 } }]
    nextIndex := k.nextIndex + 1 }

/-- Modelled from the spec: `conn.Link.Set` with a `Change` mask applies only
the masked flag bits (32-bit flags). -/
def Kernel.setFlags (k : Kernel) (index flags change : Nat) : Kernel :=
  { k with links := k.links.map (fun l =>
      if l.index = index then
        { l with flags := (l.flags &&& (4294967295 ^^^ change)) ||| (flags &&& change) }
      else l) }

/-- Modelled from the spec: `conn.Link.Set` with MTU attributes applies the
new MTU. -/
def Kernel.setMTU (k : Kernel) (index mtu : Nat) : Kernel :=
  { k with links := k.links.map (fun l =>
      if l.index = index then { l with attributes := { l.attributes with mtu := mtu } }
      else l) }

/-- The externally visible operations a sync performs, in order. -/
inductive Action where
  | deleteLink (index : Nat)
  | createLink (typ : Nat) (name kind : String)
  | listLinks
  | setFlags (index flags change : Nat)
  | setMTU (index mtu : Nat)
  | configureWireguard (name : String) (cfg : Config)
  | bumpLinkRefresh
  | addFinalizer (name : String)
  | removeFinalizer (name : String)
deriving DecidableEq, Repr

/-- The per-item errors produced by `syncLink` itself (failures of the
external interfaces are modelled as absent, as every modelled external call
succeeds). -/
inductive SyncError where
  | wireguardClientNotAvailable (name : String)
  | gettingWireguardSettings (name : String)
  | wireguardConfigPatch (name : String)
  | createdLinkNotFound (name : String)
deriving DecidableEq, Repr

/-- The state a sync step reads and writes: the kernel, the in-cycle snapshot
of the kernel link list (the `links` argument shared across the items of one
cycle), and the wireguard `LinkRefresh` counter. -/
structure SyncState where
  kernel : Kernel
  snapshot : List LinkMessage
  linkRefresh : Nat
deriving DecidableEq, Repr

/-- Modelled from the spec: the wireguard control client — `none` when
creating the client failed at startup, otherwise the device states it serves,
keyed by interface name. -/
abbrev WgClient := Option (List (String × Device))

/-- Modelled from the spec: `wgClient.Device(name)`, failing when the device
does not exist. -/
def lookupDevice (devices : List (String × Device)) (name : String) : Option Device :=
  (devices.find? (fun d => d.1 == name)).map (fun d => d.2)

/-- Modelled from the spec: `WireguardSpec.Sort` of the talos machinery sorts
the peer list ascending by public key. -/
def sortPeers (ps : List WireguardPeer) : List WireguardPeer :=
  ps.mergeSort (fun a b => a.publicKey ≤ b.publicKey)

/-- Sort the peers of a spec (`spec.Sort()`). -/
def sortSpec (s : WireguardSpec) : WireguardSpec :=
  { s with peers := sortPeers s.peers }

/-- Modelled from the spec: `WireguardSpec.Equal` of the talos machinery
compares the configuration content: private key, listen port, firewall mark
and the peer lists (the status-only public key field is not part of the
config comparison). -/
def specEqual (a b : WireguardSpec) : Bool :=
  a.privateKey == b.privateKey && a.listenPort == b.listenPort &&
    a.firewallMark == b.firewallMark && a.peers == b.peers

/-! ### The per-item sync (`LinkSpecController.syncLink`)

Each stage returns the item result, the updated state, and the list of
operations that stage performed (callers prepend their own). -/

/-- The `PhaseTearingDown` arm of `syncLink`: for a logical spec whose kernel
link exists, delete it and refresh the snapshot (re-list); deleting a
non-existent link is skipped.  Always finish by removing the finalizer. -/
def syncTearingDown (st : SyncState) (link : LinkSpecData) :
    Except SyncError Unit × SyncState × List Action :=
  let step :=
    if link.logical then
      match FindLink st.snapshot link.name with
      | some existing =>
        let kernel := st.kernel.deleteLink existing.index
        ({ st with kernel := kernel, snapshot := kernel.links },
          [Action.deleteLink existing.index, Action.listLinks])
      | none => (st, [])
    else (st, [])
  (Except.ok (), step.1, step.2 ++ [Action.removeFinalizer link.name])

/-- The wireguard settings step of the `PhaseRunning` arm: fatal when the
kind is wireguard and no client is available; otherwise read the device state
(fatal when absent), decode and sort it, and if it differs from the sorted
desired spec, encode the patch (fatal on encode failure), configure the
device and bump the wireguard `LinkRefresh`. -/
def syncWireguard (wg : WgClient) (st : SyncState) (link : LinkSpecData) :
    Except SyncError (SyncState × List Action) :=
  if link.kind = LinkKindWireguard then
    match wg with
    | none => Except.error (SyncError.wireguardClientNotAvailable link.name)
    | some devices =>
      match lookupDevice devices link.name with
      | none => Except.error (SyncError.gettingWireguardSettings link.name)
      | some dev =>
        if specEqual (sortSpec (Decode emptyWireguardSpec dev false))
            (sortSpec link.wireguard) then
          Except.ok (st, [])
        else
          match Encode (sortSpec link.wireguard)
              (sortSpec (Decode emptyWireguardSpec dev false)) with
          | none => Except.error (SyncError.wireguardConfigPatch link.name)
          | some cfg =>
            Except.ok ({ st with linkRefresh := st.linkRefresh + 1 },
              [Action.configureWireguard link.name cfg, Action.bumpLinkRefresh])
  else Except.ok (st, [])

/-- The UP-flag step of the `PhaseRunning` arm: when the kernel-reported
`IFF_UP` bit differs from the desired up flag, issue a flags-only
modification with the change mask restricted to `IFF_UP`. -/
def syncFlags (st : SyncState) (link : LinkSpecData) (existing : LinkMessage) :
    SyncState × List Action :=
  if (((existing.flags &&& 1) == 1) : Bool) ≠ link.up then
    ({ st with kernel :=
        st.kernel.setFlags existing.index (if link.up then 1 else 0) 1 },
      [Action.setFlags existing.index (if link.up then 1 else 0) 1])
  else (st, [])

/-- The MTU step of the `PhaseRunning` arm: only when the desired MTU is
non-zero and differs from the kernel-reported value, issue an MTU-only
modification and update the snapshot entry's MTU in place (`existing` points
into the snapshot). -/
def syncMTU (r : SyncState × List Action) (link : LinkSpecData) (existing : LinkMessage) :
    SyncState × List Action :=
  if link.mtu ≠ 0 ∧ existing.attributes.mtu ≠ link.mtu then
    ({ r.1 with
        kernel := r.1.kernel.setMTU existing.index link.mtu
        snapshot := r.1.snapshot.map (fun l =>
          if l.index = existing.index then
            { l with attributes := { l.attributes with mtu := link.mtu } }
          else l) },
      r.2 ++ [Action.setMTU existing.index link.mtu])
  else r

/-- The UP-flag and MTU steps in order. -/
def syncFlagsMTU (st : SyncState) (link : LinkSpecData) (existing : LinkMessage) :
    SyncState × List Action :=
  syncMTU (syncFlags st link existing) link existing

/-- The settings part of the `PhaseRunning` arm, with the link resolved: the
wireguard settings step, then the UP flag and MTU steps. -/
def syncExisting (wg : WgClient) (st : SyncState) (link : LinkSpecData)
    (existing : LinkMessage) : Except SyncError Unit × SyncState × List Action :=
  match syncWireguard wg st link with
  | Except.error e => (Except.error e, st, [])
  | Except.ok (st2, acts2) =>
    let r := syncFlagsMTU st2 link existing
    (Except.ok (), r.1, acts2 ++ r.2)

/-- The `existing == nil` handling of the `PhaseRunning` arm: a physical
interface that does not exist yet means nothing to do; logical kinds other
than wireguard are skipped (created by another owner); an absent wireguard
link is created, the snapshot refreshed (re-list) and the link re-resolved —
not finding it afterwards is a fatal item error. -/
def syncAbsent (wg : WgClient) (st : SyncState) (link : LinkSpecData)
    (existing : Option LinkMessage) : Except SyncError Unit × SyncState × List Action :=
  match existing with
  | some ex => syncExisting wg st link ex
  | none =>
    if ¬link.logical then (Except.ok (), st, [])
    else if link.kind ≠ LinkKindWireguard then (Except.ok (), st, [])
    else
      let kernel := st.kernel.createLink link.typ link.name link.kind
      let st2 : SyncState := { st with kernel := kernel, snapshot := kernel.links }
      match FindLink st2.snapshot link.name with
      | none =>
        (Except.error (SyncError.createdLinkNotFound link.name), st2,
          [Action.createLink link.typ link.name link.kind, Action.listLinks])
      | some ex =>
        let r := syncExisting wg st2 link ex
        (r.1, r.2.1,
          [Action.createLink link.typ link.name link.kind, Action.listLinks] ++ r.2.2)

/-- The `PhaseRunning` arm of `syncLink`: resolve the link by name; a found
logical link without type/kind metadata is skipped for the cycle; a found
logical link whose kind or type code differs from the desired one is deleted
(the snapshot deliberately not refreshed, as the link is set to be
re-created) and treated as absent from there on. -/
def syncRunning (wg : WgClient) (st : SyncState) (link : LinkSpecData) :
    Except SyncError Unit × SyncState × List Action :=
  match FindLink st.snapshot link.name, link.logical with
  | some existing, true =>
    match existing.attributes.info with
    | none => (Except.ok (), st, [])
    | some info =>
      if existing.typ ≠ link.typ ∨ info.kind ≠ link.kind then
        let r := syncAbsent wg { st with kernel := st.kernel.deleteLink existing.index }
          link none
        (r.1, r.2.1, Action.deleteLink existing.index :: r.2.2)
      else syncAbsent wg st link (some existing)
  | existing, _ => syncAbsent wg st link existing

/-- `LinkSpecController.syncLink`: sync one declared item against the kernel,
returning the item result, the updated state, and the operations performed. -/
def syncLink (wg : WgClient) (st : SyncState) (item : LinkItem) :
    Except SyncError Unit × SyncState × List Action :=
  match item.phase with
  | Phase.tearingDown => syncTearingDown st item.spec
  | Phase.running => syncRunning wg st item.spec

/-! ### The reconcile cycle (`LinkSpecController.Run`) -/

/-- The outcome of syncing a list of declared items sequentially. -/
structure ItemsResult where
  errs : List SyncError
  st : SyncState
  acts : List Action
deriving DecidableEq, Repr

/-- The reconcile loop of `Run` over the declared items: sync each item
sequentially against the evolving state, appending every per-item error to
the aggregate (`multierror.Append`) and never stopping early. -/
def syncItems (wg : WgClient) (st : SyncState) : List LinkItem → ItemsResult
  | [] => { errs := [], st := st, acts := [] }
  | item :: rest =>
    let r1 := syncLink wg st item
    let r2 := syncItems wg r1.2.1 rest
    { errs := (match r1.1 with | Except.error e => [e] | Except.ok _ => []) ++ r2.errs
      st := r2.st
      acts := r1.2.2 ++ r2.acts }

/-- The outcome of one convergence cycle. -/
structure CycleResult where
  errs : List SyncError
  st : SyncState
  acts : List Action
  backoffReset : Bool
deriving DecidableEq, Repr

/-- One convergence cycle of `Run`: attach finalizers to Running items, sync
every declared item sequentially aggregating the errors, and return the
aggregate only after all items are processed; the healthy-cycle signal
(`ResetRestartBackoff`) is issued exactly when the aggregate is empty. -/
def runCycle (wg : WgClient) (st : SyncState) (items : List LinkItem) : CycleResult :=
  let finalizerActs := (items.filter (fun it => it.phase == Phase.running)).map
    (fun it => Action.addFinalizer it.spec.name)
  let r := syncItems wg st items
  { errs := r.errs
    st := r.st
    acts := finalizerActs ++ r.acts
    backoffReset := r.errs.isEmpty }

/-! ### Claim C10 -/

/-- **C10**: a TearingDown non-logical (physical) item performs no kernel
link operation and no state change at all — the sync only removes the
finalizer and returns no error. -/
theorem tearing_down_physical_frame (wg : WgClient) (st : SyncState) (item : LinkItem)
    (hph : item.phase = Phase.tearingDown) (hlog : item.spec.logical = false) :
    syncLink wg st item = (Except.ok (), st, [Action.removeFinalizer item.spec.name]) := by
  simp [syncLink, hph, syncTearingDown, hlog]

/-- A physical link currently in the snapshot. -/
def eth0Link : LinkMessage :=
  { family := 0
    typ := 1
    index := 3
    flags := 1
    attributes := { name := "eth0", info := none, mtu := 1400 } }

/-- A TearingDown physical item named like `eth0Link`. -/
def physItem : LinkItem :=
  { phase := Phase.tearingDown
    spec := { name := "eth0", logical := false, up := true, mtu := 0, kind := "",
              typ := 1, wireguard := emptyWireguardSpec } }

/-- A state whose kernel and snapshot hold exactly `eth0Link`. -/
def exampleState : SyncState :=
  { kernel := { links := [eth0Link], nextIndex := 10 }
    snapshot := [eth0Link]
    linkRefresh := 0 }

theorem tearing_down_physical_frame_witness :
    syncLink none exampleState physItem =
      (Except.ok (), exampleState, [Action.removeFinalizer "eth0"]) :=
  tearing_down_physical_frame none exampleState physItem rfl rfl

/-! ### Claim C7 -/

/-- **C7**: a TearingDown item always returns no error and ends with its
finalizer removed, even when no matching kernel link exists (the delete is a
skipped no-op and the state is untouched); when the spec is logical and a
matching link exists, that link is deleted and the snapshot refreshed from
the kernel before the finalizer removal. -/
theorem tearing_down_removes_finalizer (wg : WgClient) (st : SyncState) (item : LinkItem)
    (hph : item.phase = Phase.tearingDown) :
    (syncLink wg st item).1 = Except.ok () ∧
      (syncLink wg st item).2.2.getLast? = some (Action.removeFinalizer item.spec.name) ∧
      (FindLink st.snapshot item.spec.name = none →
        (syncLink wg st item).2.2 = [Action.removeFinalizer item.spec.name] ∧
          (syncLink wg st item).2.1 = st) ∧
      (∀ ex, item.spec.logical = true → FindLink st.snapshot item.spec.name = some ex →
        (syncLink wg st item).2.2 =
          [Action.deleteLink ex.index, Action.listLinks,
            Action.removeFinalizer item.spec.name] ∧
          (syncLink wg st item).2.1.kernel = st.kernel.deleteLink ex.index ∧
          (syncLink wg st item).2.1.snapshot = (st.kernel.deleteLink ex.index).links) := by
  by_cases hlog : item.spec.logical = true
  · cases hfind : FindLink st.snapshot item.spec.name with
    | none => simp [syncLink, hph, syncTearingDown, hlog, hfind]
    | some ex => simp [syncLink, hph, syncTearingDown, hlog, hfind]
  · simp [syncLink, hph, syncTearingDown, hlog]

/-- A TearingDown logical item (a wireguard link) matching a snapshot link. -/
def wgTearItem : LinkItem :=
  { phase := Phase.tearingDown
    spec := { name := "wg0", logical := true, up := true, mtu := 0,
              kind := "wireguard", typ := 65534, wireguard := emptyWireguardSpec } }

/-- The kernel link backing `wgTearItem`. -/
def wg0Link : LinkMessage :=
  { family := 0
    typ := 65534
    index := 7
    flags := 1
    attributes := { name := "wg0", info := some { kind := "wireguard" }, mtu := 1420 } }

/-- A state holding `eth0Link` and `wg0Link`. -/
def exampleState2 : SyncState :=
  { kernel := { links := [eth0Link, wg0Link], nextIndex := 10 }
    snapshot := [eth0Link, wg0Link]
    linkRefresh := 0 }

/-- A TearingDown logical item with no matching kernel link. -/
def wgGoneItem : LinkItem :=
  { phase := Phase.tearingDown
    spec := { name := "wg9", logical := true, up := true, mtu := 0,
              kind := "wireguard", typ := 65534, wireguard := emptyWireguardSpec } }

theorem tearing_down_removes_finalizer_witness :
    ((syncLink none exampleState2 wgGoneItem).1 = Except.ok () ∧
        (syncLink none exampleState2 wgGoneItem).2.2 =
          [Action.removeFinalizer "wg9"]) ∧
      (syncLink none exampleState2 wgTearItem).2.2 =
        [Action.deleteLink 7, Action.listLinks, Action.removeFinalizer "wg0"] ∧
      (syncLink none exampleState2 wgTearItem).2.1.snapshot = [eth0Link] := by
  have h1 := tearing_down_removes_finalizer none exampleState2 wgGoneItem rfl
  have h2 := tearing_down_removes_finalizer none exampleState2 wgTearItem rfl
  refine ⟨⟨h1.1, (h1.2.2.1 (by decide)).1⟩, ?_, ?_⟩
  · exact (h2.2.2.2 wg0Link rfl (by decide)).1
  · rw [(h2.2.2.2 wg0Link rfl (by decide)).2.2]
    decide

/-! ### Claim C2 -/

/-- A Running logical bond item. -/
def bondItem : LinkItem :=
  { phase := Phase.running
    spec := { name := "bond0", logical := true, up := true, mtu := 0,
              kind := "bond", typ := 1, wireguard := emptyWireguardSpec } }

/-- A kernel link named `bond0` reporting a different kind (`dummy`). -/
def staleBondLink : LinkMessage :=
  { family := 0
    typ := 1
    index := 7
    flags := 1
    attributes := { name := "bond0", info := some { kind := "dummy" }, mtu := 1500 } }

/-- A state holding only `staleBondLink`. -/
def staleBondState : SyncState :=
  { kernel := { links := [staleBondLink], nextIndex := 8 }
    snapshot := [staleBondLink]
    linkRefresh := 0 }

/-- C2 as stated fails: a Running logical item of a non-wireguard kind
(bond) whose kernel link reports a different kind is deleted but NOT
recreated — the sync ends right after the delete with no create action. -/
theorem kind_mismatch_counterexample :
    (syncLink none staleBondState bondItem).2.2 = [Action.deleteLink 7] ∧
      (syncLink none staleBondState bondItem).1 = Except.ok () ∧
      staleBondLink.attributes.info = some { kind := "dummy" } ∧
      bondItem.spec.kind = "bond" ∧ bondItem.spec.logical = true :=
  ⟨rfl, rfl, rfl, rfl, rfl⟩

/-- **C2** (amended): for every Running logical item whose existing kernel
link reports a different kind or type code, the sync deletes that kernel link
first and never patches kind or type in place; it recreates the link only
when the desired kind is wireguard — for any other logical kind the item ends
right after the delete, with no create and no modification. -/
theorem kind_mismatch_delete_then_recreate (wg : WgClient) (st : SyncState)
    (item : LinkItem) (ex : LinkMessage) (info : LinkInfo)
    (hph : item.phase = Phase.running) (hlog : item.spec.logical = true)
    (hfind : FindLink st.snapshot item.spec.name = some ex)
    (hinfo : ex.attributes.info = some info)
    (hmis : ex.typ ≠ item.spec.typ ∨ info.kind ≠ item.spec.kind) :
    (syncLink wg st item).2.2.head? = some (Action.deleteLink ex.index) ∧
      (item.spec.kind = LinkKindWireguard →
        Action.createLink item.spec.typ item.spec.name item.spec.kind ∈
          (syncLink wg st item).2.2) ∧
      (item.spec.kind ≠ LinkKindWireguard →
        syncLink wg st item =
          (Except.ok (), { st with kernel := st.kernel.deleteLink ex.index },
            [Action.deleteLink ex.index])) := by
  simp only [syncLink, hph, syncRunning, hfind, hlog, hinfo]
  rw [if_pos hmis]
  refine ⟨rfl, ?_, ?_⟩
  · intro hkind
    simp only [syncAbsent, hlog, Bool.not_true, hkind]
    simp only [ne_eq, not_true_eq_false, if_false, Bool.false_eq_true]
    split <;> simp
  · intro hkind
    simp [syncAbsent, hlog, hkind]

theorem kind_mismatch_delete_then_recreate_witness :
    (syncLink none staleBondState bondItem).2.2.head? = some (Action.deleteLink 7) ∧
      syncLink none staleBondState bondItem =
        (Except.ok (),
          { staleBondState with kernel := staleBondState.kernel.deleteLink 7 },
          [Action.deleteLink 7]) := by
  have h := kind_mismatch_delete_then_recreate none staleBondState bondItem staleBondLink
    { kind := "dummy" } rfl rfl rfl rfl (Or.inr (by decide))
  exact ⟨h.1, h.2.2 (by decide)⟩

/-! ### Claim C3 -/

theorem Kernel.setFlags_index (k : Kernel) (i f c : Nat) :
    (k.setFlags i f c).links.map (fun l => l.index) = k.links.map (fun l => l.index) := by
  unfold Kernel.setFlags
  rw [List.map_map]
  refine List.map_congr_left fun l _ => ?_
  by_cases h : l.index = i <;> simp [h, Function.comp]

theorem Kernel.setMTU_index (k : Kernel) (i m : Nat) :
    (k.setMTU i m).links.map (fun l => l.index) = k.links.map (fun l => l.index) := by
  unfold Kernel.setMTU
  rw [List.map_map]
  refine List.map_congr_left fun l _ => ?_
  by_cases h : l.index = i <;> simp [h, Function.comp]

theorem snapshot_mtu_map_index (links : List LinkMessage) (i m : Nat) :
    ((links.map fun l =>
        if l.index = i then { l with attributes := { l.attributes with mtu := m } }
        else l).map fun l => l.index) = links.map fun l => l.index := by
  rw [List.map_map]
  refine List.map_congr_left fun l _ => ?_
  by_cases h : l.index = i <;> simp [h, Function.comp]

theorem snapshot_mtu_map_name (links : List LinkMessage) (i m : Nat) :
    ((links.map fun l =>
        if l.index = i then { l with attributes := { l.attributes with mtu := m } }
        else l).map fun l => l.attributes.name) = links.map fun l => l.attributes.name := by
  rw [List.map_map]
  refine List.map_congr_left fun l _ => ?_
  by_cases h : l.index = i <;> simp [h, Function.comp]

/-- The wireguard settings step never alters the kernel or the snapshot. -/
theorem syncWireguard_state {wg : WgClient} {st : SyncState} {link : LinkSpecData}
    {st2 : SyncState} {acts2 : List Action}
    (h : syncWireguard wg st link = Except.ok (st2, acts2)) :
    st2.kernel = st.kernel ∧ st2.snapshot = st.snapshot := by
  unfold syncWireguard at h
  split at h
  · split at h
    · simp at h
    · split at h
      · simp at h
      · split at h
        · rw [Except.ok.injEq, Prod.mk.injEq] at h
          rw [← h.1]
          exact ⟨rfl, rfl⟩
        · split at h
          · simp at h
          · rw [Except.ok.injEq, Prod.mk.injEq] at h
            rw [← h.1]
            exact ⟨rfl, rfl⟩
  · rw [Except.ok.injEq, Prod.mk.injEq] at h
    rw [← h.1]
    exact ⟨rfl, rfl⟩

/-- The flag step keeps the snapshot and the kernel link indices. -/
theorem syncFlags_state (st : SyncState) (link : LinkSpecData) (ex : LinkMessage) :
    (syncFlags st link ex).1.snapshot = st.snapshot ∧
      ((syncFlags st link ex).1.kernel.links.map (fun l => l.index) =
        st.kernel.links.map (fun l => l.index)) := by
  unfold syncFlags
  split
  · exact ⟨rfl, Kernel.setFlags_index _ _ _ _⟩
  · exact ⟨rfl, rfl⟩

/-- The MTU step keeps the snapshot link indices and names and the kernel
link indices. -/
theorem syncMTU_state (r : SyncState × List Action) (link : LinkSpecData)
    (ex : LinkMessage) :
    ((syncMTU r link ex).1.snapshot.map (fun l => l.index) =
        r.1.snapshot.map (fun l => l.index)) ∧
      ((syncMTU r link ex).1.kernel.links.map (fun l => l.index) =
        r.1.kernel.links.map (fun l => l.index)) ∧
      ((syncMTU r link ex).1.snapshot.map (fun l => l.attributes.name) =
        r.1.snapshot.map (fun l => l.attributes.name)) := by
  unfold syncMTU
  split
  · exact ⟨snapshot_mtu_map_index _ _ _, Kernel.setMTU_index _ _ _,
      snapshot_mtu_map_name _ _ _⟩
  · exact ⟨rfl, rfl, rfl⟩

/-- The flag/MTU steps change neither the snapshot link indices and names nor
the kernel link indices. -/
theorem syncFlagsMTU_state (st : SyncState) (link : LinkSpecData) (ex : LinkMessage) :
    ((syncFlagsMTU st link ex).1.snapshot.map (fun l => l.index) =
        st.snapshot.map (fun l => l.index)) ∧
      ((syncFlagsMTU st link ex).1.kernel.links.map (fun l => l.index) =
        st.kernel.links.map (fun l => l.index)) ∧
      ((syncFlagsMTU st link ex).1.snapshot.map (fun l => l.attributes.name) =
        st.snapshot.map (fun l => l.attributes.name)) := by
  obtain ⟨hfs, hfk⟩ := syncFlags_state st link ex
  obtain ⟨h1, h2, h3⟩ := syncMTU_state (syncFlags st link ex) link ex
  unfold syncFlagsMTU
  exact ⟨h1.trans (by rw [hfs]), h2.trans hfk, h3.trans (by rw [hfs])⟩

/-- The settings stage changes neither the snapshot link indices and names
nor the kernel link indices. -/
theorem syncExisting_state (wg : WgClient) (st : SyncState) (link : LinkSpecData)
    (ex : LinkMessage) :
    ((syncExisting wg st link ex).2.1.snapshot.map (fun l => l.index) =
        st.snapshot.map (fun l => l.index)) ∧
      ((syncExisting wg st link ex).2.1.kernel.links.map (fun l => l.index) =
        st.kernel.links.map (fun l => l.index)) ∧
      ((syncExisting wg st link ex).2.1.snapshot.map (fun l => l.attributes.name) =
        st.snapshot.map (fun l => l.attributes.name)) := by
  unfold syncExisting
  split
  · exact ⟨rfl, rfl, rfl⟩
  next st2 acts2 heq =>
    obtain ⟨hk2, hs2⟩ := syncWireguard_state heq
    obtain ⟨h1, h2, h3⟩ := syncFlagsMTU_state st2 link ex
    exact ⟨h1.trans (by rw [hs2]), h2.trans (by rw [hk2]), h3.trans (by rw [hs2])⟩

/-- C3 as stated fails: after the replace-path delete of a non-wireguard
logical link (kind mismatch), the snapshot is not refreshed — the deleted
link (index 7) is still in the snapshot seen by subsequent steps, though it
is gone from the kernel. -/
theorem snapshot_refresh_counterexample :
    (syncLink none staleBondState bondItem).2.2 = [Action.deleteLink 7] ∧
      (syncLink none staleBondState bondItem).2.1.snapshot = [staleBondLink] ∧
      (syncLink none staleBondState bondItem).2.1.kernel.links = [] ∧
      staleBondLink.index = 7 :=
  ⟨rfl, rfl, rfl, rfl⟩

/-- **C3** (amended): the snapshot is refreshed in place after a teardown
delete and after the create of an absent wireguard link, so the snapshot seen
by subsequent steps reflects those; the replace-path delete (kind/type
mismatch) is deliberately not followed by a refresh, so for a non-wireguard
logical kind the deleted link stays in the snapshot (see the
counterexample). -/
theorem snapshot_refresh_after_create_delete (wg : WgClient) (st : SyncState)
    (item : LinkItem) :
    (∀ ex, item.phase = Phase.tearingDown → item.spec.logical = true →
      FindLink st.snapshot item.spec.name = some ex →
      (syncLink wg st item).2.1.snapshot = (syncLink wg st item).2.1.kernel.links) ∧
      (item.phase = Phase.running → item.spec.logical = true →
        item.spec.kind = LinkKindWireguard →
        FindLink st.snapshot item.spec.name = none →
        ((syncLink wg st item).2.1.snapshot.map (fun l => l.index) =
            (syncLink wg st item).2.1.kernel.links.map (fun l => l.index)) ∧
          item.spec.name ∈
            (syncLink wg st item).2.1.snapshot.map (fun l => l.attributes.name)) := by
  constructor
  · intro ex hph hlog hfind
    simp [syncLink, hph, syncTearingDown, hlog, hfind]
  · intro hph hlog hkind hfind
    simp only [syncLink, hph, syncRunning, hfind, hlog]
    simp only [syncAbsent, hlog, Bool.not_true, hkind, Bool.false_eq_true, if_false,
      ne_eq, not_true_eq_false]
    split
    next heq =>
      constructor
      · rfl
      · simp [Kernel.createLink, List.mem_map]
    next ex2 heq =>
      obtain ⟨h1, h2, h3⟩ := syncExisting_state wg
        { st with
          kernel := st.kernel.createLink item.spec.typ item.spec.name LinkKindWireguard
          snapshot := (st.kernel.createLink item.spec.typ item.spec.name
            LinkKindWireguard).links }
        item.spec ex2
      refine ⟨?_, ?_⟩
      · rw [h1, h2]
      · rw [h3]
        simp [Kernel.createLink, List.mem_map]

/-- A Running logical wireguard item used to exercise the create path of the
snapshot-refresh theorem (the client is absent, so the wireguard settings
step errors, but the create and the snapshot refresh have already happened
and persist). -/
def wgCreateItem : LinkItem :=
  { phase := Phase.running
    spec := { name := "wg2", logical := true, up := true, mtu := 0,
              kind := "wireguard", typ := 65534, wireguard := emptyWireguardSpec } }

theorem snapshot_refresh_after_create_delete_witness :
    ((syncLink none exampleState2 wgTearItem).2.1.snapshot =
        (syncLink none exampleState2 wgTearItem).2.1.kernel.links) ∧
      ((syncLink none exampleState wgCreateItem).2.1.snapshot.map (fun l => l.index) =
        (syncLink none exampleState wgCreateItem).2.1.kernel.links.map
          (fun l => l.index)) ∧
      "wg2" ∈ (syncLink none exampleState wgCreateItem).2.1.snapshot.map
        (fun l => l.attributes.name) := by
  have h1 := (snapshot_refresh_after_create_delete none exampleState2 wgTearItem).1
    wg0Link rfl rfl rfl
  have h2 := (snapshot_refresh_after_create_delete none exampleState wgCreateItem).2
    rfl rfl rfl (by decide)
  exact ⟨h1, h2.1, h2.2⟩

/-! ### Claim C6 -/

theorem syncFlags_no_mtu (st : SyncState) (link : LinkSpecData) (ex : LinkMessage) :
    ∀ i m, Action.setMTU i m ∉ (syncFlags st link ex).2 := by
  intro i m
  unfold syncFlags
  split <;> simp

theorem syncMTU_acts_zero (r : SyncState × List Action) (link : LinkSpecData)
    (ex : LinkMessage) (h : link.mtu = 0) : syncMTU r link ex = r := by
  unfold syncMTU
  rw [if_neg]
  simp [h]

theorem syncWireguard_no_mtu {wg : WgClient} {st : SyncState} {link : LinkSpecData}
    {st2 : SyncState} {acts2 : List Action}
    (hok : syncWireguard wg st link = Except.ok (st2, acts2)) :
    ∀ i m, Action.setMTU i m ∉ acts2 := by
  intro i m
  unfold syncWireguard at hok
  split at hok
  · split at hok
    · simp at hok
    · split at hok
      · simp at hok
      · split at hok
        · rw [Except.ok.injEq, Prod.mk.injEq] at hok
          rw [← hok.2]
          simp
        · split at hok
          · simp at hok
          · rw [Except.ok.injEq, Prod.mk.injEq] at hok
            rw [← hok.2]
            simp
  · rw [Except.ok.injEq, Prod.mk.injEq] at hok
    rw [← hok.2]
    simp

theorem syncExisting_no_mtu (wg : WgClient) (st : SyncState) (link : LinkSpecData)
    (ex : LinkMessage) (h : link.mtu = 0) :
    ∀ i m, Action.setMTU i m ∉ (syncExisting wg st link ex).2.2 := by
  intro i m
  unfold syncExisting
  split
  · simp
  next st2 acts2 heq =>
    intro hmem
    rcases List.mem_append.mp hmem with h1 | h2
    · exact syncWireguard_no_mtu heq i m h1
    · unfold syncFlagsMTU at h2
      rw [syncMTU_acts_zero _ _ _ h] at h2
      exact syncFlags_no_mtu st2 link ex i m h2

theorem syncAbsent_no_mtu (wg : WgClient) (st : SyncState) (link : LinkSpecData)
    (existing : Option LinkMessage) (h : link.mtu = 0) :
    ∀ i m, Action.setMTU i m ∉ (syncAbsent wg st link existing).2.2 := by
  intro i m
  cases existing with
  | some ex => exact syncExisting_no_mtu wg st link ex h i m
  | none =>
    simp only [syncAbsent]
    split
    · simp
    · split
      · simp
      · split
        · simp
        next ex2 heq =>
          intro hmem
          rcases List.mem_append.mp hmem with h1 | h2
          · simp at h1
          · exact syncExisting_no_mtu _ _ _ _ h i m h2

theorem syncRunning_no_mtu (wg : WgClient) (st : SyncState) (link : LinkSpecData)
    (h : link.mtu = 0) :
    ∀ i m, Action.setMTU i m ∉ (syncRunning wg st link).2.2 := by
  intro i m
  unfold syncRunning
  split
  · split
    · simp
    · split
      · intro hmem
        rcases List.mem_cons.mp hmem with h1 | h2
        · simp at h1
        · exact syncAbsent_no_mtu _ _ _ _ h i m h2
      · exact syncAbsent_no_mtu _ _ _ _ h i m
  · exact syncAbsent_no_mtu _ _ _ _ h i m

theorem syncTearingDown_no_mtu (st : SyncState) (link : LinkSpecData) :
    ∀ i m, Action.setMTU i m ∉ (syncTearingDown st link).2.2 := by
  intro i m
  unfold syncTearingDown
  split
  · split <;> simp
  · simp

theorem syncMTU_noop (r : SyncState × List Action) (link : LinkSpecData)
    (ex : LinkMessage) (h : ¬(link.mtu ≠ 0 ∧ ex.attributes.mtu ≠ link.mtu)) :
    syncMTU r link ex = r := by
  unfold syncMTU
  rw [if_neg h]

/-- The up/MTU settings stage, entered with any state and any resolved link
whenever the wireguard settings step succeeded: the MTU modification is
issued iff the desired MTU is non-zero and differs from the link's
kernel-reported MTU, and then the snapshot entry is updated in place. -/
theorem syncExisting_mtu_iff {wg : WgClient} {st : SyncState} {link : LinkSpecData}
    {ex : LinkMessage} {st2 : SyncState} {acts2 : List Action}
    (hok : syncWireguard wg st link = Except.ok (st2, acts2)) :
    ((Action.setMTU ex.index link.mtu ∈ (syncExisting wg st link ex).2.2) ↔
        (link.mtu ≠ 0 ∧ ex.attributes.mtu ≠ link.mtu)) ∧
      (link.mtu ≠ 0 → ex.attributes.mtu ≠ link.mtu →
        (syncExisting wg st link ex).2.1.snapshot = st.snapshot.map (fun l =>
          if l.index = ex.index then
            { l with attributes := { l.attributes with mtu := link.mtu } }
          else l)) := by
  have hsw := syncWireguard_state hok
  have hred : syncExisting wg st link ex =
      (Except.ok (), (syncFlagsMTU st2 link ex).1,
        acts2 ++ (syncFlagsMTU st2 link ex).2) := by
    unfold syncExisting
    rw [hok]
  have hpos : (link.mtu ≠ 0 ∧ ex.attributes.mtu ≠ link.mtu) →
      syncFlagsMTU st2 link ex =
        ({ (syncFlags st2 link ex).1 with
            kernel := (syncFlags st2 link ex).1.kernel.setMTU ex.index link.mtu
            snapshot := (syncFlags st2 link ex).1.snapshot.map (fun l =>
              if l.index = ex.index then
                { l with attributes := { l.attributes with mtu := link.mtu } }
              else l) },
          (syncFlags st2 link ex).2 ++ [Action.setMTU ex.index link.mtu]) := by
    intro hg
    unfold syncFlagsMTU syncMTU
    rw [if_pos hg]
  rw [hred]
  refine ⟨⟨?_, ?_⟩, ?_⟩
  · intro hmem
    by_contra hguard
    rw [show syncFlagsMTU st2 link ex = syncFlags st2 link ex from by
      unfold syncFlagsMTU
      exact syncMTU_noop _ _ _ hguard] at hmem
    rcases List.mem_append.mp hmem with h1 | h2
    · exact syncWireguard_no_mtu hok _ _ h1
    · exact syncFlags_no_mtu st2 link ex _ _ h2
  · intro hguard
    rw [hpos hguard]
    simp
  · intro h1 h2
    rw [hpos ⟨h1, h2⟩]
    show (syncFlags st2 link ex).1.snapshot.map _ = _
    rw [(syncFlags_state st2 link ex).1, hsw.2]

/-- The state right after creating an absent logical link and refreshing the
snapshot from the kernel. -/
def createdState (st : SyncState) (link : LinkSpecData) : SyncState :=
  { st with
    kernel := st.kernel.createLink link.typ link.name link.kind
    snapshot := (st.kernel.createLink link.typ link.name link.kind).links }

/-- A Running logical wireguard item with desired MTU 1500 whose kernel link
reports MTU 1400 but carries no kind metadata (so the item is skipped). -/
def noInfoItem : LinkItem :=
  { phase := Phase.running
    spec := { name := "wg1", logical := true, up := true, mtu := 1500,
              kind := "wireguard", typ := 65534, wireguard := emptyWireguardSpec } }

/-- The metadata-less kernel link behind `noInfoItem`. -/
def noInfoLink : LinkMessage :=
  { family := 0
    typ := 65534
    index := 4
    flags := 1
    attributes := { name := "wg1", info := none, mtu := 1400 } }

/-- A state holding only `noInfoLink`. -/
def noInfoState : SyncState :=
  { kernel := { links := [noInfoLink], nextIndex := 5 }
    snapshot := [noInfoLink]
    linkRefresh := 0 }

/-- C6 as stated fails: a Running item whose desired MTU (1500) is non-zero
and differs from the kernel-reported MTU (1400) can still produce no MTU
modification — the logical link lacks kind metadata, so the whole sync is
skipped with no action at all. -/
theorem mtu_sync_counterexample :
    (syncLink none noInfoState noInfoItem).2.2 = [] ∧
      (syncLink none noInfoState noInfoItem).1 = Except.ok () ∧
      noInfoItem.spec.mtu = 1500 ∧
      (FindLink noInfoState.snapshot noInfoItem.spec.name).map
        (fun l => l.attributes.mtu) = some 1400 :=
  ⟨rfl, rfl, rfl, rfl⟩

/-- **C6** (amended): a desired MTU of 0 never produces an MTU modification
on any path.  For every Running item that reaches the up/MTU settings stage —
its link resolved and the wireguard settings step succeeded — an MTU
modification is issued iff the desired MTU is non-zero and differs from the
kernel-reported MTU, after which the snapshot entry's MTU is updated to the
desired value: the stage property holds for every entry state and resolved
link, and every Running route into the stage (physical or matched logical
link found, absent wireguard link created, or mismatched wireguard link
replaced) reduces to it. -/
theorem mtu_sync_iff (wg : WgClient) (st : SyncState) (item : LinkItem) :
    (item.spec.mtu = 0 → ∀ i m, Action.setMTU i m ∉ (syncLink wg st item).2.2) ∧
      (∀ st0 ex st2 acts2,
        syncWireguard wg st0 item.spec = Except.ok (st2, acts2) →
        ((Action.setMTU ex.index item.spec.mtu ∈
              (syncExisting wg st0 item.spec ex).2.2 ↔
            (item.spec.mtu ≠ 0 ∧ ex.attributes.mtu ≠ item.spec.mtu)) ∧
          (item.spec.mtu ≠ 0 → ex.attributes.mtu ≠ item.spec.mtu →
            (syncExisting wg st0 item.spec ex).2.1.snapshot =
              st0.snapshot.map (fun l =>
                if l.index = ex.index then
                  { l with attributes := { l.attributes with mtu := item.spec.mtu } }
                else l)))) ∧
      (∀ ex, item.phase = Phase.running →
        FindLink st.snapshot item.spec.name = some ex →
        (item.spec.logical = false ∨
          ∃ info, ex.attributes.info = some info ∧
            ex.typ = item.spec.typ ∧ info.kind = item.spec.kind) →
        syncLink wg st item = syncExisting wg st item.spec ex) ∧
      (∀ ex2, item.phase = Phase.running →
        FindLink st.snapshot item.spec.name = none →
        item.spec.logical = true → item.spec.kind = LinkKindWireguard →
        FindLink (st.kernel.createLink item.spec.typ item.spec.name
            item.spec.kind).links item.spec.name = some ex2 →
        syncLink wg st item =
          ((syncExisting wg (createdState st item.spec) item.spec ex2).1,
            (syncExisting wg (createdState st item.spec) item.spec ex2).2.1,
            Action.createLink item.spec.typ item.spec.name item.spec.kind ::
              Action.listLinks ::
                (syncExisting wg (createdState st item.spec) item.spec ex2).2.2)) ∧
      (∀ ex info ex2, item.phase = Phase.running →
        FindLink st.snapshot item.spec.name = some ex →
        item.spec.logical = true → ex.attributes.info = some info →
        (ex.typ ≠ item.spec.typ ∨ info.kind ≠ item.spec.kind) →
        item.spec.kind = LinkKindWireguard →
        FindLink ((st.kernel.deleteLink ex.index).createLink item.spec.typ
            item.spec.name item.spec.kind).links item.spec.name = some ex2 →
        syncLink wg st item =
          ((syncExisting wg
              (createdState { st with kernel := st.kernel.deleteLink ex.index }
                item.spec) item.spec ex2).1,
            (syncExisting wg
              (createdState { st with kernel := st.kernel.deleteLink ex.index }
                item.spec) item.spec ex2).2.1,
            Action.deleteLink ex.index ::
              Action.createLink item.spec.typ item.spec.name item.spec.kind ::
                Action.listLinks ::
                  (syncExisting wg
                    (createdState { st with kernel := st.kernel.deleteLink ex.index }
                      item.spec) item.spec ex2).2.2)) := by
  refine ⟨?_, ?_, ?_, ?_, ?_⟩
  · intro h0 i m
    unfold syncLink
    cases item.phase with
    | tearingDown => exact syncTearingDown_no_mtu st item.spec i m
    | running => exact syncRunning_no_mtu wg st item.spec h0 i m
  · intro st0 ex st2 acts2 hok
    exact syncExisting_mtu_iff hok
  · intro ex hph hfind hroute
    rcases hroute with hlog | ⟨info, hinfo, htyp, hkind⟩
    · simp only [syncLink, hph, syncRunning, hfind, hlog]
      rfl
    · cases hlog : item.spec.logical with
      | false =>
        simp only [syncLink, hph, syncRunning, hfind, hlog]
        rfl
      | true =>
        simp only [syncLink, hph, syncRunning, hfind, hlog, hinfo]
        rw [if_neg (by simp [htyp, hkind])]
        rfl
  · intro ex2 hph hfind hlog hkind hfind2
    simp only [syncLink, hph, syncRunning, hfind, hlog]
    have h2 : ¬(item.spec.kind ≠ LinkKindWireguard) := by simp [hkind]
    simp only [syncAbsent, hlog, Bool.not_true, Bool.false_eq_true, if_false, h2,
      ite_false]
    simp only [hfind2]
    simp [createdState]
  · intro ex info ex2 hph hfind hlog hinfo hmis hkind hfind2
    simp only [syncLink, hph, syncRunning, hfind, hlog, hinfo]
    rw [if_pos hmis]
    have h2 : ¬(item.spec.kind ≠ LinkKindWireguard) := by simp [hkind]
    simp only [syncAbsent, hlog, Bool.not_true, Bool.false_eq_true, if_false, h2,
      ite_false]
    simp only [hfind2]
    simp [createdState]

/-- A Running physical item desiring MTU 1500 for `eth0Link` (MTU 1400). -/
def mtuItem : LinkItem :=
  { phase := Phase.running
    spec := { name := "eth0", logical := false, up := true, mtu := 1500, kind := "",
              typ := 1, wireguard := emptyWireguardSpec } }

theorem mtu_sync_iff_witness :
    Action.setMTU 3 1500 ∈ (syncLink none exampleState mtuItem).2.2 ∧
      (syncLink none exampleState mtuItem).2.1.snapshot =
        [{ eth0Link with attributes := { eth0Link.attributes with mtu := 1500 } }] := by
  have h := mtu_sync_iff none exampleState mtuItem
  have hroute := h.2.2.1 eth0Link rfl rfl (Or.inl rfl)
  have hstage := h.2.1 exampleState eth0Link exampleState [] rfl
  constructor
  · rw [hroute]
    exact hstage.1.mpr (by decide)
  · rw [hroute, hstage.2 (by decide) (by decide)]
    rfl

/-! ### Claim C8 -/

theorem FindLink_append_singleton (xs : List LinkMessage) {y : LinkMessage}
    {name : String} (h : y.attributes.name = name) :
    ∃ l, FindLink (xs ++ [y]) name = some l := by
  induction xs with
  | nil =>
    refine ⟨y, ?_⟩
    simp [FindLink, List.find?, h]
  | cons x xs ih =>
    by_cases hx : x.attributes.name = name
    · refine ⟨x, ?_⟩
      unfold FindLink
      rw [List.cons_append, List.find?_cons_of_pos]
      simp [hx]
    · obtain ⟨l, hl⟩ := ih
      refine ⟨l, ?_⟩
      unfold FindLink at hl ⊢
      rw [List.cons_append, List.find?_cons_of_neg]
      · exact hl
      · simp [hx]

theorem syncWireguard_client_missing {st : SyncState} {link : LinkSpecData}
    (hk : link.kind = LinkKindWireguard) :
    syncWireguard none st link =
      Except.error (SyncError.wireguardClientNotAvailable link.name) := by
  simp [syncWireguard, hk]

theorem syncExisting_client_missing {st : SyncState} {link : LinkSpecData}
    {ex : LinkMessage} (hk : link.kind = LinkKindWireguard) :
    syncExisting none st link ex =
      (Except.error (SyncError.wireguardClientNotAvailable link.name), st, []) := by
  unfold syncExisting
  rw [syncWireguard_client_missing hk]

theorem syncAbsent_client_missing_absent {st : SyncState} {link : LinkSpecData}
    (hk : link.kind = LinkKindWireguard) (hlog : link.logical = true) :
    (syncAbsent none st link none).1 =
      Except.error (SyncError.wireguardClientNotAvailable link.name) := by
  have h2 : ¬(link.kind ≠ LinkKindWireguard) := by simp [hk]
  simp only [syncAbsent, hlog, Bool.not_true, Bool.false_eq_true, if_false, h2,
    ite_false, Kernel.createLink]
  obtain ⟨l, hl⟩ := FindLink_append_singleton st.kernel.links
    (y := { family := 0, typ := link.typ, index := st.kernel.nextIndex, flags := 0,
            attributes := { name := link.name, info := some { kind := link.kind },
                            mtu := 0 } })
    (show _ = link.name from rfl)
  simp only [hl, syncExisting_client_missing hk]
  simp

/-- **C8**: for a Running wireguard-kind item, a missing wireguard client is
a fatal per-item error — whether the link already exists (logical or not) or
is first created — while the benign conditions (absent physical interface,
missing kind metadata on a logical link, teardown of a non-existent link)
produce no error at all. -/
theorem wireguard_client_missing_fatal (st : SyncState) (item : LinkItem) :
    (item.phase = Phase.running → item.spec.kind = LinkKindWireguard →
      (FindLink st.snapshot item.spec.name = none → item.spec.logical = true →
        (syncLink none st item).1 =
          Except.error (SyncError.wireguardClientNotAvailable item.spec.name)) ∧
      (∀ ex, FindLink st.snapshot item.spec.name = some ex →
        (item.spec.logical = false ∨ ∃ i, ex.attributes.info = some i) →
        (syncLink none st item).1 =
          Except.error (SyncError.wireguardClientNotAvailable item.spec.name))) ∧
      (item.phase = Phase.running → item.spec.logical = false →
        FindLink st.snapshot item.spec.name = none →
        syncLink none st item = (Except.ok (), st, [])) ∧
      (item.phase = Phase.running → item.spec.logical = true →
        ∀ ex, FindLink st.snapshot item.spec.name = some ex →
          ex.attributes.info = none →
          syncLink none st item = (Except.ok (), st, [])) ∧
      (item.phase = Phase.tearingDown → FindLink st.snapshot item.spec.name = none →
        (syncLink none st item).1 = Except.ok ()) := by
  refine ⟨?_, ?_, ?_, ?_⟩
  · intro hph hk
    constructor
    · intro hfind hlog
      simp only [syncLink, hph, syncRunning, hfind, hlog]
      exact syncAbsent_client_missing_absent hk hlog
    · intro ex hfind hbenign
      cases hlog : item.spec.logical with
      | false =>
        simp only [syncLink, hph, syncRunning, hfind, hlog]
        rw [show syncAbsent none st item.spec (some ex) =
          syncExisting none st item.spec ex from rfl]
        rw [syncExisting_client_missing hk]
      | true =>
        rcases hbenign with hl | ⟨i, hi⟩
        · rw [hlog] at hl
          exact absurd hl (by simp)
        · simp only [syncLink, hph, syncRunning, hfind, hlog, hi]
          split
          · rw [show syncAbsent none
              { st with kernel := st.kernel.deleteLink ex.index } item.spec none =
              syncAbsent none
                { st with kernel := st.kernel.deleteLink ex.index } item.spec none
              from rfl]
            exact syncAbsent_client_missing_absent hk hlog
          · rw [show syncAbsent none st item.spec (some ex) =
              syncExisting none st item.spec ex from rfl]
            rw [syncExisting_client_missing hk]
  · intro hph hlog hfind
    simp [syncLink, hph, syncRunning, hfind, hlog, syncAbsent]
  · intro hph hlog ex hfind hinfo
    simp [syncLink, hph, syncRunning, hfind, hlog, hinfo]
  · intro hph hfind
    cases hlog : item.spec.logical with
    | false => simp [syncLink, hph, syncTearingDown, hlog]
    | true => simp [syncLink, hph, syncTearingDown, hlog, hfind]

/-- A Running logical wireguard item whose kernel link does not exist yet. -/
def wgAbsentItem : LinkItem :=
  { phase := Phase.running
    spec := { name := "wg2", logical := true, up := true, mtu := 0,
              kind := "wireguard", typ := 65534, wireguard := emptyWireguardSpec } }

/-- A Running physical item whose kernel link does not exist yet. -/
def ethAbsentItem : LinkItem :=
  { phase := Phase.running
    spec := { name := "eth9", logical := false, up := true, mtu := 0, kind := "",
              typ := 1, wireguard := emptyWireguardSpec } }

theorem wireguard_client_missing_fatal_witness :
    (syncLink none exampleState wgAbsentItem).1 =
        Except.error (SyncError.wireguardClientNotAvailable "wg2") ∧
      syncLink none exampleState ethAbsentItem = (Except.ok (), exampleState, []) := by
  have h := wireguard_client_missing_fatal exampleState wgAbsentItem
  have h2 := wireguard_client_missing_fatal exampleState ethAbsentItem
  exact ⟨(h.1 rfl rfl).1 (by decide) rfl, h2.2.1 rfl rfl (by decide)⟩

/-! ### Claim C4 -/

/-- **C4**: one cycle runs the per-item sync for every declared item even
when earlier items fail — syncing `xs ++ ys` equals syncing `xs` and then
`ys` from the resulting state, with the error aggregates and action traces
concatenated (no error short-circuits the remaining items) — the cycle's
aggregate is exactly the concatenation of the per-item errors, and the
healthy-cycle signal (restart-backoff reset) is issued iff the aggregate is
empty. -/
theorem cycle_aggregates_errors (wg : WgClient) (st : SyncState) (xs ys : List LinkItem) :
    (syncItems wg st (xs ++ ys) =
      { errs := (syncItems wg st xs).errs ++
          (syncItems wg (syncItems wg st xs).st ys).errs
        st := (syncItems wg (syncItems wg st xs).st ys).st
        acts := (syncItems wg st xs).acts ++
          (syncItems wg (syncItems wg st xs).st ys).acts }) ∧
      ((runCycle wg st xs).backoffReset = true ↔ (runCycle wg st xs).errs = []) ∧
      (runCycle wg st xs).errs = (syncItems wg st xs).errs := by
  refine ⟨?_, ?_, rfl⟩
  · induction xs generalizing st with
    | nil => simp [syncItems]
    | cons x xs ih =>
      simp only [List.cons_append, syncItems, List.append_eq]
      rw [ih]
      simp [List.append_assoc]
  · simp [runCycle, List.isEmpty_iff]

end Talemu
